import Mathlib

/-!
Verification of the match-state engine of the golf match-play tournament
backend (Go sources under `backend/internal/models` and
`backend/internal/store`).

Modelling conventions:
* Go maps (`map[int]string`, `map[string]string`) are embedded as
  association lists `List (κ × υ)` together with Go-map operations:
  lookup of a missing key yields the zero value, assignment overwrites the
  entry for the key (or appends a fresh one), `delete` removes it.  The
  store files key hole results by `strconv.Itoa(hole)`; since `Itoa` is
  injective and every access goes through it, hole-result maps are keyed
  directly by the hole number (an `Int`, as in `models.go`).
* Go `float64` point values are embedded as `Rat`; all values appearing in
  the scoreboard arithmetic (multiples of 0.25) are exact in both.
* `time.Now()` is passed in explicitly as an abstract `now : Int` tick.
* Nil-able Go slices/maps are embedded as `Option` fields (`none` = nil),
  which is what the JSON / Firestore decoders produce for absent fields.
-/

namespace GolfScoring

/-! ### Association-list model of Go maps -/

/-- Does the Go map contain an entry for key `k`? -/
def assocHasKey {κ υ : Type} [BEq κ] (m : List (κ × υ)) (k : κ) : Bool :=
  m.any (fun p => p.1 == k)

/-- Go map assignment `m[k] = v`: overwrite the entry for `k` if present,
otherwise add a new entry. -/
def assocInsert {κ υ : Type} [BEq κ] (m : List (κ × υ)) (k : κ) (v : υ) : List (κ × υ) :=
  if assocHasKey m k then m.map (fun p => if p.1 == k then (k, v) else p)
  else m ++ [(k, v)]

/-- Go map lookup `m[k]` returning `none` when the key is absent. -/
def assocFind {κ υ : Type} [BEq κ] (m : List (κ × υ)) (k : κ) : Option υ :=
  (m.find? (fun p => p.1 == k)).map (fun p => p.2)

/-- Go `delete(m, k)`. -/
def assocErase {κ υ : Type} [BEq κ] (m : List (κ × υ)) (k : κ) : List (κ × υ) :=
  m.filter (fun p => !(p.1 == k))

section AssocLemmas

variable {κ υ : Type} [BEq κ] [LawfulBEq κ]

theorem assocFind_cons (a : κ × υ) (m : List (κ × υ)) (k : κ) :
    assocFind (a :: m) k = if a.1 == k then some a.2 else assocFind m k := by
  by_cases h : a.1 == k <;> simp [assocFind, List.find?_cons, h]

theorem assocFind_of_not_hasKey (m : List (κ × υ)) (k : κ) (h : ¬ assocHasKey m k) :
    assocFind m k = none := by
  induction m with
  | nil => rfl
  | cons a tl ih =>
    simp only [assocHasKey, List.any_cons, Bool.or_eq_true, not_or] at h
    rw [assocFind_cons, if_neg h.1]
    exact ih (by simpa [assocHasKey] using h.2)

theorem assocFind_map_overwrite_self (m : List (κ × υ)) (k : κ) (v : υ)
    (h : assocHasKey m k = true) :
    assocFind (m.map (fun p => if p.1 == k then (k, v) else p)) k = some v := by
  induction m with
  | nil => simp [assocHasKey] at h
  | cons a tl ih =>
    by_cases ha : a.1 == k
    · rw [List.map_cons, if_pos ha, assocFind_cons]
      simp
    · simp only [assocHasKey, List.any_cons, ha, Bool.false_or] at h
      rw [List.map_cons, if_neg ha, assocFind_cons, if_neg ha]
      exact ih h

theorem assocFind_map_overwrite_ne (m : List (κ × υ)) (k k' : κ) (v : υ)
    (hne : ¬ k' = k) :
    assocFind (m.map (fun p => if p.1 == k then (k, v) else p)) k' = assocFind m k' := by
  induction m with
  | nil => rfl
  | cons a tl ih =>
    by_cases ha : a.1 == k
    · have hak : a.1 = k := by simpa using ha
      rw [List.map_cons, if_pos ha, assocFind_cons, assocFind_cons]
      have h1 : ¬ ((k, v).1 == k') := by simpa using fun h => hne h.symm
      have h2 : ¬ (a.1 == k') := by simp [hak]; exact fun h => hne h.symm
      rw [if_neg h1, if_neg h2, ih]
    · rw [List.map_cons, if_neg ha, assocFind_cons, assocFind_cons, ih]

theorem assocFind_append_single (m : List (κ × υ)) (k k' : κ) (v : υ) :
    assocFind (m ++ [(k, v)]) k' =
      match assocFind m k' with
      | some w => some w
      | none => if k == k' then some v else none := by
  induction m with
  | nil => by_cases h : k == k' <;> simp [assocFind, List.find?, h]
  | cons a tl ih =>
    rw [List.cons_append, assocFind_cons, assocFind_cons]
    by_cases ha : a.1 == k' <;> simp [ha, ih]

theorem assocFind_insert_self (m : List (κ × υ)) (k : κ) (v : υ) :
    assocFind (assocInsert m k v) k = some v := by
  by_cases h : assocHasKey m k
  · rw [assocInsert, if_pos h]
    exact assocFind_map_overwrite_self m k v h
  · rw [assocInsert, if_neg h, assocFind_append_single,
      assocFind_of_not_hasKey m k h]
    simp

theorem assocFind_insert_ne (m : List (κ × υ)) (k k' : κ) (v : υ) (hne : ¬ k' = k) :
    assocFind (assocInsert m k v) k' = assocFind m k' := by
  by_cases h : assocHasKey m k
  · rw [assocInsert, if_pos h]
    exact assocFind_map_overwrite_ne m k k' v hne
  · rw [assocInsert, if_neg h, assocFind_append_single]
    have hkk : ¬ (k == k') := by simpa using fun h => hne h.symm
    cases hfind : assocFind m k' <;> simp [hkk]

theorem assocInsert_insert_same (m : List (κ × υ)) (k : κ) (v : υ) :
    assocInsert (assocInsert m k v) k v = assocInsert m k v := by
  by_cases h : assocHasKey m k
  · have hmap : assocHasKey (m.map (fun p => if p.1 == k then (k, v) else p)) k = true := by
      simp only [assocHasKey, List.any_map, List.any_eq_true] at h ⊢
      obtain ⟨p, hp, hpk⟩ := h
      refine ⟨p, hp, ?_⟩
      simp [Function.comp, hpk]
    have h1 : assocInsert m k v = m.map (fun p => if p.1 == k then (k, v) else p) := by
      rw [assocInsert, if_pos h]
    rw [h1, assocInsert, if_pos hmap, List.map_map]
    have hff : ((fun p : κ × υ => if p.1 == k then (k, v) else p) ∘
        (fun p : κ × υ => if p.1 == k then (k, v) else p)) =
        (fun p : κ × υ => if p.1 == k then (k, v) else p) := by
      funext p
      by_cases hp : p.1 == k <;> simp [Function.comp, hp]
    rw [hff]
  · have happ : assocHasKey (m ++ [(k, v)]) k = true := by
      simp [assocHasKey]
    have h1 : assocInsert m k v = m ++ [(k, v)] := by
      rw [assocInsert, if_neg h]
    rw [h1, assocInsert, if_pos happ, List.map_append]
    have hm : m.map (fun p => if p.1 == k then (k, v) else p) = m := by
      have hid : m.map (fun p => if p.1 == k then (k, v) else p) = m.map id := by
        refine List.map_congr_left ?_
        intro p hp
        have hpk : ¬ (p.1 == k) := by
          intro hc
          exact h (show assocHasKey m k = true from List.any_eq_true.mpr ⟨p, hp, hc⟩)
        simp [hpk]
      rw [hid, List.map_id]
    rw [hm]
    simp

theorem assocFind_erase_self (m : List (κ × υ)) (k : κ) :
    assocFind (assocErase m k) k = none := by
  induction m with
  | nil => rfl
  | cons a tl ih =>
    by_cases ha : a.1 == k
    · simpa [assocErase, List.filter_cons, ha] using ih
    · simp only [assocErase, List.filter_cons, ha, Bool.not_false, if_true]
      rw [assocFind_cons, if_neg ha]
      simpa [assocErase] using ih

theorem assocFind_erase_ne (m : List (κ × υ)) (k k' : κ) (hne : ¬ k' = k) :
    assocFind (assocErase m k) k' = assocFind m k' := by
  induction m with
  | nil => rfl
  | cons a tl ih =>
    by_cases ha : a.1 == k
    · have hak : ¬ (a.1 == k') := by
        have : a.1 = k := by simpa using ha
        simpa [this] using fun h => hne h.symm
      rw [assocFind_cons, if_neg hak]
      simpa [assocErase, List.filter_cons, ha] using ih
    · simp only [assocErase, List.filter_cons, ha, Bool.not_false, if_true]
      rw [assocFind_cons, assocFind_cons]
      by_cases hk' : a.1 == k' <;> simp [hk']
      simpa [assocErase] using ih

theorem assocErase_of_not_hasKey (m : List (κ × υ)) (k : κ) (h : ¬ assocHasKey m k) :
    assocErase m k = m := by
  induction m with
  | nil => rfl
  | cons a tl ih =>
    simp only [assocHasKey, List.any_cons, Bool.or_eq_true, not_or] at h
    simp only [assocErase, List.filter_cons, h.1, Bool.not_false, if_true]
    rw [show tl.filter (fun p => !(p.1 == k)) = assocErase tl k from rfl,
      ih (by simpa [assocHasKey] using h.2)]

end AssocLemmas

/-! ### Data model (`models.go`) -/

/-- `MatchResult` enum. -/
inductive MatchResult where
  | pending
  | team1
  | team2
  | tie
deriving DecidableEq, Repr

/-- `RoundType` enum. -/
inductive RoundType where
  | lauderdale
  | foursome
  | fourball
  | singles
deriving DecidableEq, Repr

/-- `Match.HoleResults`: hole number (1-18) -> "team1", "team2" or "halved". -/
abbrev HRMap := List (Int × String)

/-- Go read `m[h]` on a `HoleResults` map: missing key yields `""`. -/
def mapGet (m : HRMap) (k : Int) : String :=
  (assocFind m k).getD ""

structure Player where
  id : String
  name : String
  teamId : String
  userEmail : String
deriving DecidableEq, Repr

structure Team where
  id : String
  name : String
  players : Option (List Player)
deriving DecidableEq, Repr

structure Match where
  id : String
  roundNumber : Int
  team1Players : Option (List String)
  team2Players : Option (List String)
  result : MatchResult
  score : String
  holeResults : Option HRMap
deriving DecidableEq, Repr

structure Round where
  number : Int
  name : String
  roundType : RoundType
  pointsPerMatch : Rat
  matches' : Option (List Match)
deriving DecidableEq, Repr

structure Tournament where
  id : String
  name : String
  team1 : Team
  team2 : Team
  rounds : Option (List Round)
  createdAt : Int
  updatedAt : Int
deriving DecidableEq, Repr

@[ext]
structure RoundScore where
  roundNumber : Int
  roundName : String
  team1Points : Rat
  team2Points : Rat
  pointsPerMatch : Rat
  matchesPlayed : Nat
  totalMatches : Nat
deriving DecidableEq, Repr

@[ext]
structure Scoreboard where
  team1Name : String
  team2Name : String
  team1Total : Rat
  team2Total : Rat
  roundScores : List RoundScore
deriving DecidableEq, Repr

/-! ### `CalculateMatchPlayResult` (models.go lines 187-245) -/

/-- One iteration of the scanning loop `for h := 1; h <= 18; h++` with the
`switch holeResults[h]` counting; the accumulator is
`(t1Wins, t2Wins, played)` and iteration `i` reads hole `i+1`. -/
def tallyStep (m : HRMap) (acc : Nat × Nat × Nat) (i : Nat) : Nat × Nat × Nat :=
  let v := mapGet m ((i : Int) + 1)
  if v == "team1" then (acc.1 + 1, acc.2.1, acc.2.2 + 1)
  else if v == "team2" then (acc.1, acc.2.1 + 1, acc.2.2 + 1)
  else if v == "halved" then (acc.1, acc.2.1, acc.2.2 + 1)
  else acc

/-- The `(t1Wins, t2Wins, played)` counts of the scanning loop. -/
def holeTally (m : HRMap) : Nat × Nat × Nat :=
  (List.range 18).foldl (tallyStep m) (0, 0, 0)

/-- `CalculateMatchPlayResult` from `models.go`, structured exactly as the Go
function: empty-map check, scan of holes 1..18, clinch checks, tie check,
running-score strings. -/
def CalculateMatchPlayResult (holeResults : HRMap) (team1Name team2Name : String) :
    MatchResult × String :=
  if holeResults.length = 0 then (MatchResult.pending, "")
  else
    let tally := holeTally holeResults
    let t1Wins := tally.1
    let t2Wins := tally.2.1
    let played := tally.2.2
    if played = 0 then (MatchResult.pending, "")
    else
      let lead : Int := (t1Wins : Int) - (t2Wins : Int)
      let remaining : Int := 18 - (played : Int)
      if 0 < lead ∧ remaining < lead then
        if remaining = 0 then (MatchResult.team1, toString lead ++ " UP")
        else (MatchResult.team1, toString lead ++ " & " ++ toString remaining)
      else if lead < 0 ∧ remaining < -lead then
        if remaining = 0 then (MatchResult.team2, toString (-lead) ++ " UP")
        else (MatchResult.team2, toString (-lead) ++ " & " ++ toString remaining)
      else if remaining = 0 ∧ lead = 0 then (MatchResult.tie, "A/S")
      else if 0 < lead then
        (MatchResult.pending,
          team1Name ++ " " ++ toString lead ++ " UP thru " ++ toString played)
      else if lead < 0 then
        (MatchResult.pending,
          team2Name ++ " " ++ toString (-lead) ++ " UP thru " ++ toString played)
      else (MatchResult.pending, "A/S thru " ++ toString played)

/-- A hole value that counts toward `played`. -/
def isPlayedOutcome (v : String) : Bool :=
  v == "team1" || v == "team2" || v == "halved"

/-- Spec-side count: holes of 1..18 recorded for team 1. -/
def specT1Wins (m : HRMap) : Nat :=
  (List.range 18).countP (fun (i : Nat) => mapGet m ((i : Int) + 1) == "team1")

/-- Spec-side count: holes of 1..18 recorded for team 2. -/
def specT2Wins (m : HRMap) : Nat :=
  (List.range 18).countP (fun (i : Nat) => mapGet m ((i : Int) + 1) == "team2")

/-- Spec-side count: holes of 1..18 with any recorded outcome (a halved hole
counts toward `played` but toward neither win count). -/
def specPlayed (m : HRMap) : Nat :=
  (List.range 18).countP (fun (i : Nat) => isPlayedOutcome (mapGet m ((i : Int) + 1)))

/-- The calculator as worded by the specification (§4.1) and claim C1: the
case analysis over `played`, `lead = team1Wins - team2Wins` and
`remaining = 18 - played`.  This is the spec-side definition that
`CalculateMatchPlayResult` is compared against. -/
def specCalculateMatchPlayResult (m : HRMap) (team1Name team2Name : String) :
    MatchResult × String :=
  let played := specPlayed m
  if played = 0 then (MatchResult.pending, "")
  else
    let lead : Int := (specT1Wins m : Int) - (specT2Wins m : Int)
    let remaining : Int := 18 - (played : Int)
    if 0 < lead ∧ remaining < lead then
      (MatchResult.team1,
        if remaining = 0 then toString lead ++ " UP"
        else toString lead ++ " & " ++ toString remaining)
    else if 0 < -lead ∧ remaining < -lead then
      (MatchResult.team2,
        if remaining = 0 then toString (-lead) ++ " UP"
        else toString (-lead) ++ " & " ++ toString remaining)
    else if remaining = 0 ∧ lead = 0 then (MatchResult.tie, "A/S")
    else if 0 < lead then
      (MatchResult.pending,
        team1Name ++ " " ++ toString lead ++ " UP thru " ++ toString played)
    else if lead < 0 then
      (MatchResult.pending,
        team2Name ++ " " ++ toString (-lead) ++ " UP thru " ++ toString played)
    else (MatchResult.pending, "A/S thru " ++ toString played)

theorem tally_foldl (m : HRMap) (l : List Nat) (a b c : Nat) :
    l.foldl (tallyStep m) (a, b, c) =
      (a + l.countP (fun (i : Nat) => mapGet m ((i : Int) + 1) == "team1"),
       b + l.countP (fun (i : Nat) => mapGet m ((i : Int) + 1) == "team2"),
       c + l.countP (fun (i : Nat) => isPlayedOutcome (mapGet m ((i : Int) + 1)))) := by
  induction l generalizing a b c with
  | nil => simp
  | cons x tl ih =>
    rw [List.foldl_cons]
    by_cases h1 : mapGet m ((x : Int) + 1) = "team1"
    · have hb1 : (mapGet m ((x : Int) + 1) == "team1") = true := by simp [h1]
      have hb2 : (mapGet m ((x : Int) + 1) == "team2") = false := by simp [h1]
      have hb3 : (mapGet m ((x : Int) + 1) == "halved") = false := by simp [h1]
      rw [show tallyStep m (a, b, c) x = (a + 1, b, c + 1) from by
        simp [tallyStep, h1], ih]
      simp [List.countP_cons, isPlayedOutcome, hb1, hb2, hb3, Prod.mk.injEq]
      omega
    · by_cases h2 : mapGet m ((x : Int) + 1) = "team2"
      · have hb1 : (mapGet m ((x : Int) + 1) == "team1") = false := by simp [h2]
        have hb2 : (mapGet m ((x : Int) + 1) == "team2") = true := by simp [h2]
        have hb3 : (mapGet m ((x : Int) + 1) == "halved") = false := by simp [h2]
        rw [show tallyStep m (a, b, c) x = (a, b + 1, c + 1) from by
          simp [tallyStep, h1, h2], ih]
        simp [List.countP_cons, isPlayedOutcome, hb1, hb2, hb3, Prod.mk.injEq]
        omega
      · by_cases h3 : mapGet m ((x : Int) + 1) = "halved"
        · have hb1 : (mapGet m ((x : Int) + 1) == "team1") = false := by simp [h3]
          have hb2 : (mapGet m ((x : Int) + 1) == "team2") = false := by simp [h3]
          have hb3 : (mapGet m ((x : Int) + 1) == "halved") = true := by simp [h3]
          rw [show tallyStep m (a, b, c) x = (a, b, c + 1) from by
            simp [tallyStep, h1, h2, h3], ih]
          simp [List.countP_cons, isPlayedOutcome, hb1, hb2, hb3, Prod.mk.injEq]
          omega
        · have hb1 : (mapGet m ((x : Int) + 1) == "team1") = false := by simp [h1]
          have hb2 : (mapGet m ((x : Int) + 1) == "team2") = false := by simp [h2]
          have hb3 : (mapGet m ((x : Int) + 1) == "halved") = false := by simp [h3]
          rw [show tallyStep m (a, b, c) x = (a, b, c) from by
            simp [tallyStep, h1, h2, h3], ih]
          simp [List.countP_cons, isPlayedOutcome, hb1, hb2, hb3, Prod.mk.injEq]

theorem holeTally_eq (m : HRMap) :
    holeTally m = (specT1Wins m, specT2Wins m, specPlayed m) := by
  simpa [holeTally, specT1Wins, specT2Wins, specPlayed] using
    tally_foldl m (List.range 18) 0 0 0

/-- Shared bridge: the Go calculator coincides with the spec-side case
analysis. -/
theorem calc_eq_spec (m : HRMap) (n1 n2 : String) :
    CalculateMatchPlayResult m n1 n2 = specCalculateMatchPlayResult m n1 n2 := by
  by_cases hnil : m = []
  · subst hnil
    have h0 : specPlayed ([] : HRMap) = 0 := by decide
    simp [CalculateMatchPlayResult, specCalculateMatchPlayResult, h0]
  · have hlen : ¬ (m.length = 0) := by simpa [List.length_eq_zero] using hnil
    rw [CalculateMatchPlayResult, specCalculateMatchPlayResult]
    simp only [hlen, if_false, holeTally_eq]
    split_ifs <;> first | rfl | (exfalso; omega)

example :
    CalculateMatchPlayResult
      ((List.range 18).map (fun i => ((i : Int) + 1, "team1"))) "A" "B" =
      (MatchResult.team1, "18 UP") := by decide

example :
    CalculateMatchPlayResult
      ((List.range 10).map (fun i => ((i : Int) + 1, "team1"))) "A" "B" =
      (MatchResult.team1, "10 & 8") := by decide

example :
    CalculateMatchPlayResult
      ((List.range 9).map (fun i => ((i : Int) + 1, "team1"))) "A" "B" =
      (MatchResult.pending, "A 9 UP thru 9") := by decide

example :
    CalculateMatchPlayResult
      ((List.range 18).map (fun i => ((i : Int) + 1, if i % 2 = 0 then "team1" else "team2")))
      "A" "B" = (MatchResult.tie, "A/S") := by decide

example : CalculateMatchPlayResult [] "A" "B" = (MatchResult.pending, "") := by decide

example :
    CalculateMatchPlayResult [((3 : Int), "halved")] "A" "B" =
      (MatchResult.pending, "A/S thru 1") := by decide

/-- C1: for every hole-result map (over holes 1-18) and team names,
`CalculateMatchPlayResult` returns exactly the spec-side case analysis
`specCalculateMatchPlayResult`: `(pending, "")` when no hole has a recorded
outcome; the team-1 clinch results `"{lead} & {remaining}"` / `"{lead} UP"`
when `lead > 0` and `lead > remaining` (with the symmetric team-2 results
using `-lead`); `(tie, "A/S")` when `remaining = 0` and `lead = 0`; and
otherwise `(pending, s)` with the running-score string, where a halved hole
counts toward `played` but toward neither win count. -/
theorem calculateMatchPlayResult_correct (m : HRMap) (n1 n2 : String) :
    CalculateMatchPlayResult m n1 n2 = specCalculateMatchPlayResult m n1 n2 :=
  calc_eq_spec m n1 n2

/-- C3: `CalculateMatchPlayResult` (a total Lean function by construction)
depends only on the outcomes recorded for holes 1..18: two maps that agree
on every hole 1..18 produce identical `(result, score)` pairs, regardless of
entry order and of entries with keys outside 1..18. -/
theorem calculateMatchPlayResult_deterministic (m1 m2 : HRMap) (n1 n2 : String)
    (h : ∀ k ∈ Finset.Icc (1 : Int) 18, mapGet m1 k = mapGet m2 k) :
    CalculateMatchPlayResult m1 n1 n2 = CalculateMatchPlayResult m2 n1 n2 := by
  have hpt : ∀ (i : Nat), i ∈ List.range 18 →
      mapGet m1 ((i : Int) + 1) = mapGet m2 ((i : Int) + 1) := by
    intro i hi
    refine h _ ?_
    have hib := List.mem_range.mp hi
    rw [Finset.mem_Icc]
    omega
  have h1 : specT1Wins m1 = specT1Wins m2 := by
    refine List.countP_congr ?_
    intro i hi
    rw [hpt i hi]
  have h2 : specT2Wins m1 = specT2Wins m2 := by
    refine List.countP_congr ?_
    intro i hi
    rw [hpt i hi]
  have h3 : specPlayed m1 = specPlayed m2 := by
    refine List.countP_congr ?_
    intro i hi
    rw [hpt i hi]
  rw [calc_eq_spec, calc_eq_spec, specCalculateMatchPlayResult,
    specCalculateMatchPlayResult, h1, h2, h3]

/-- Witness for C3 at a concrete pair of maps: same recorded outcomes for
holes 1..18, different entry order, one junk entry outside 1..18. -/
theorem calculateMatchPlayResult_deterministic_witness :
    (∀ k ∈ Finset.Icc (1 : Int) 18,
        mapGet [((1 : Int), "team1"), (2, "halved")] k =
          mapGet [((2 : Int), "halved"), (1, "team1"), (99, "zzz")] k) ∧
      CalculateMatchPlayResult [((1 : Int), "team1"), (2, "halved")] "A" "B" =
        CalculateMatchPlayResult [((2 : Int), "halved"), (1, "team1"), (99, "zzz")] "A" "B" :=
  ⟨by decide,
    calculateMatchPlayResult_deterministic _ _ "A" "B" (by decide)⟩

/-! ### Hole-result mutator (`UpdateHoleResult` in `file.go` / `firestore.go`) -/

/-- Read of the hole map; missing key yields Go's zero value `""`. -/
theorem mapGet_insert_self (m : HRMap) (k : Int) (v : String) :
    mapGet (assocInsert m k v) k = v := by
  rw [mapGet, assocFind_insert_self]
  rfl

theorem mapGet_insert_ne (m : HRMap) (k k' : Int) (v : String) (hne : ¬ k' = k) :
    mapGet (assocInsert m k v) k' = mapGet m k' := by
  rw [mapGet, assocFind_insert_ne m k k' v hne, mapGet]

theorem mapGet_erase_self (m : HRMap) (k : Int) :
    mapGet (assocErase m k) k = "" := by
  rw [mapGet, assocFind_erase_self]
  rfl

theorem mapGet_erase_ne (m : HRMap) (k k' : Int) (hne : ¬ k' = k) :
    mapGet (assocErase m k) k' = mapGet m k' := by
  rw [mapGet, assocFind_erase_ne m k k' hne, mapGet]

/-- One iteration of the backfill loop `for h := 1; h < hole; h++`
(iteration `i` processes hole `i+1`): an earlier hole with no recorded
outcome is set to `"halved"`. -/
def backfillStep (acc : HRMap) (i : Nat) : HRMap :=
  if mapGet acc ((i : Int) + 1) = "" then assocInsert acc ((i : Int) + 1) "halved" else acc

/-- The backfill loop of `UpdateHoleResult`. -/
def backfill (m : HRMap) (hole : Int) : HRMap :=
  (List.range (hole - 1).toNat).foldl backfillStep m

/-- The full hole edit inside `UpdateHoleResult`: delete the entry on the
empty outcome, set/overwrite it otherwise, then backfill earlier holes. -/
def applyHoleEdit (hr : HRMap) (hole : Int) (result : String) : HRMap :=
  backfill (if result = "" then assocErase hr hole else assocInsert hr hole result) hole

theorem mapGet_backfill_range (m : HRMap) (n : Nat) (k : Int) :
    mapGet ((List.range n).foldl backfillStep m) k =
      if 1 ≤ k ∧ k ≤ (n : Int) ∧ mapGet m k = "" then "halved" else mapGet m k := by
  induction n generalizing k with
  | zero =>
    simp only [List.range_zero, List.foldl_nil, Nat.cast_zero]
    split_ifs with h
    · obtain ⟨h1, h2, _⟩ := h
      exfalso
      omega
    · rfl
  | succ n ih =>
    rw [List.range_succ, List.foldl_append, List.foldl_cons, List.foldl_nil]
    have hmid : mapGet ((List.range n).foldl backfillStep m) ((n : Int) + 1) =
        mapGet m ((n : Int) + 1) := by
      rw [ih ((n : Int) + 1)]
      split_ifs with h
      · obtain ⟨_, h2, _⟩ := h
        exfalso
        omega
      · rfl
    by_cases hm : mapGet m ((n : Int) + 1) = ""
    · rw [backfillStep, hmid, if_pos hm]
      by_cases hk : k = (n : Int) + 1
      · subst hk
        rw [mapGet_insert_self]
        rw [if_pos ⟨by omega, by push_cast; omega, hm⟩]
      · rw [mapGet_insert_ne _ _ _ _ hk, ih k]
        by_cases hc : 1 ≤ k ∧ k ≤ (n : Int) ∧ mapGet m k = ""
        · rw [if_pos hc, if_pos ⟨hc.1, by push_cast; omega, hc.2.2⟩]
        · rw [if_neg hc, if_neg ?_]
          intro hc'
          obtain ⟨h1, h2, h3⟩ := hc'
          refine hc ⟨h1, ?_, h3⟩
          push_cast at h2
          omega
    · rw [backfillStep, hmid, if_neg hm]
      rw [ih k]
      by_cases hc : 1 ≤ k ∧ k ≤ (n : Int) ∧ mapGet m k = ""
      · rw [if_pos hc, if_pos ⟨hc.1, by push_cast; omega, hc.2.2⟩]
      · rw [if_neg hc, if_neg ?_]
        intro hc'
        obtain ⟨h1, h2, h3⟩ := hc'
        refine hc ⟨h1, ?_, h3⟩
        by_cases hk : k = (n : Int) + 1
        · exact absurd (hk ▸ h3) hm
        · push_cast at h2
          omega

theorem mapGet_backfill (m : HRMap) (hole : Int) (k : Int) :
    mapGet (backfill m hole) k =
      if 1 ≤ k ∧ k < hole ∧ mapGet m k = "" then "halved" else mapGet m k := by
  rw [backfill, mapGet_backfill_range]
  by_cases h1 : 1 ≤ k ∧ k ≤ (((hole - 1).toNat : Nat) : Int) ∧ mapGet m k = ""
  · rw [if_pos h1, if_pos ⟨h1.1, by omega, h1.2.2⟩]
  · rw [if_neg h1, if_neg ?_]
    intro h2
    exact h1 ⟨h2.1, by omega, h2.2.2⟩

theorem mapGet_applyHoleEdit (hr : HRMap) (hole : Int) (res : String) (k : Int) :
    mapGet (applyHoleEdit hr hole res) k =
      if k = hole then res
      else if 1 ≤ k ∧ k < hole ∧ mapGet hr k = "" then "halved" else mapGet hr k := by
  rw [applyHoleEdit, mapGet_backfill]
  by_cases hk : k = hole
  · subst hk
    rw [if_pos rfl, if_neg (fun hc => absurd hc.2.1 (lt_irrefl k))]
    by_cases hres : res = ""
    · rw [if_pos hres, mapGet_erase_self, hres]
    · rw [if_neg hres, mapGet_insert_self]
  · have hget : mapGet (if res = "" then assocErase hr hole else assocInsert hr hole res) k =
        mapGet hr k := by
      by_cases hres : res = ""
      · rw [if_pos hres, mapGet_erase_ne _ _ _ hk]
      · rw [if_neg hres, mapGet_insert_ne _ _ _ _ hk]
    rw [hget, if_neg hk]

/-- No entry of the map has key `k`. -/
def noKey (m : HRMap) (k : Int) : Prop := ∀ p ∈ m, ¬ p.1 = k

/-- Every entry of the map with key `k` holds value `v`. -/
def allKeyVal (m : HRMap) (k : Int) (v : String) : Prop := ∀ p ∈ m, p.1 = k → p.2 = v

theorem hasKey_iff_find_isSome (m : HRMap) (k : Int) :
    assocHasKey m k = true ↔ (assocFind m k).isSome := by
  constructor
  · intro h
    obtain ⟨x, hx, hxk⟩ := List.any_eq_true.mp h
    have hs : (m.find? (fun p => p.1 == k)).isSome := List.find?_isSome.mpr ⟨x, hx, hxk⟩
    rw [assocFind]
    cases hf : m.find? (fun p => p.1 == k) with
    | none => rw [hf] at hs; simp at hs
    | some p => simp
  · intro h
    rw [assocFind] at h
    cases hf : m.find? (fun p => p.1 == k) with
    | none => rw [hf] at h; simp at h
    | some p =>
      have hmem := List.mem_of_find?_eq_some hf
      have hpk := List.find?_some hf
      exact List.any_eq_true.mpr ⟨p, hmem, hpk⟩

theorem assocInsert_mem (m : HRMap) (k : Int) (v : String) (p : Int × String)
    (hp : p ∈ assocInsert m k v) : p = (k, v) ∨ (p ∈ m ∧ ¬ p.1 = k) := by
  by_cases h : assocHasKey m k
  · rw [assocInsert, if_pos h] at hp
    obtain ⟨q, hq, hfq⟩ := List.mem_map.mp hp
    by_cases hqk : q.1 == k
    · left
      rw [if_pos hqk] at hfq
      exact hfq.symm
    · right
      rw [if_neg hqk] at hfq
      subst hfq
      exact ⟨hq, by simpa using hqk⟩
  · rw [assocInsert, if_neg h] at hp
    rcases List.mem_append.mp hp with hmem | hone
    · right
      refine ⟨hmem, ?_⟩
      intro hc
      exact h (List.any_eq_true.mpr ⟨p, hmem, by simpa using hc⟩)
    · left
      simpa using hone

theorem noKey_erase (m : HRMap) (k : Int) : noKey (assocErase m k) k := by
  intro p hp
  have := List.of_mem_filter hp
  simpa using this

theorem erase_eq_of_noKey (m : HRMap) (k : Int) (h : noKey m k) : assocErase m k = m := by
  rw [assocErase]
  refine List.filter_eq_self.mpr ?_
  intro p hp
  simpa using h p hp

theorem noKey_insert (m : HRMap) (k k' : Int) (v : String) (hne : ¬ k' = k)
    (h : noKey m k) : noKey (assocInsert m k' v) k := by
  intro p hp
  rcases assocInsert_mem m k' v p hp with rfl | ⟨hm, _⟩
  · simpa using hne
  · exact h p hm

theorem allKeyVal_insert_self (m : HRMap) (k : Int) (v : String) :
    allKeyVal (assocInsert m k v) k v := by
  intro p hp hpk
  rcases assocInsert_mem m k v p hp with rfl | ⟨_, hk⟩
  · rfl
  · exact absurd hpk hk

theorem allKeyVal_insert_ne (m : HRMap) (k k' : Int) (v w : String) (hne : ¬ k' = k)
    (h : allKeyVal m k v) : allKeyVal (assocInsert m k' w) k v := by
  intro p hp hpk
  rcases assocInsert_mem m k' w p hp with rfl | ⟨hm, _⟩
  · exact absurd hpk hne
  · exact h p hm hpk

theorem hasKey_insert_self (m : HRMap) (k : Int) (v : String) :
    assocHasKey (assocInsert m k v) k = true := by
  rw [hasKey_iff_find_isSome, assocFind_insert_self]
  rfl

theorem hasKey_insert (m : HRMap) (k k' : Int) (v : String)
    (h : assocHasKey m k = true) : assocHasKey (assocInsert m k' v) k = true := by
  by_cases hne : k = k'
  · subst hne
    exact hasKey_insert_self m k v
  · rw [hasKey_iff_find_isSome, assocFind_insert_ne m k' k v hne]
    rw [hasKey_iff_find_isSome] at h
    exact h

theorem insert_eq_of_allKeyVal (m : HRMap) (k : Int) (v : String)
    (hk : assocHasKey m k = true) (hv : allKeyVal m k v) : assocInsert m k v = m := by
  rw [assocInsert, if_pos hk]
  have hid : m.map (fun p => if p.1 == k then (k, v) else p) = m.map id := by
    refine List.map_congr_left ?_
    intro p hp
    by_cases hpk : p.1 == k
    · have h1 : p.1 = k := by simpa using hpk
      have h2 : p.2 = v := hv p hp h1
      rw [if_pos hpk, id]
      rw [← h1, ← h2]
    · rw [if_neg hpk, id]
  rw [hid, List.map_id]

theorem foldl_backfillStep_noKey (l : List Nat) (m : HRMap) (k : Int)
    (hl : ∀ i ∈ l, ¬ ((i : Int) + 1 = k)) (h : noKey m k) :
    noKey (l.foldl backfillStep m) k := by
  induction l generalizing m with
  | nil => exact h
  | cons x tl ih =>
    rw [List.foldl_cons]
    refine ih (backfillStep m x) (fun i hi => hl i (List.mem_cons_of_mem x hi)) ?_
    rw [backfillStep]
    split_ifs with hc
    · exact noKey_insert m k _ _ (hl x (List.mem_cons_self x tl)) h
    · exact h

theorem foldl_backfillStep_allKeyVal (l : List Nat) (m : HRMap) (k : Int) (v : String)
    (hl : ∀ i ∈ l, ¬ ((i : Int) + 1 = k)) (h : allKeyVal m k v) :
    allKeyVal (l.foldl backfillStep m) k v := by
  induction l generalizing m with
  | nil => exact h
  | cons x tl ih =>
    rw [List.foldl_cons]
    refine ih (backfillStep m x) (fun i hi => hl i (List.mem_cons_of_mem x hi)) ?_
    rw [backfillStep]
    split_ifs with hc
    · exact allKeyVal_insert_ne m k _ v _ (hl x (List.mem_cons_self x tl)) h
    · exact h

theorem foldl_backfillStep_hasKey (l : List Nat) (m : HRMap) (k : Int)
    (h : assocHasKey m k = true) :
    assocHasKey (l.foldl backfillStep m) k = true := by
  induction l generalizing m with
  | nil => exact h
  | cons x tl ih =>
    rw [List.foldl_cons]
    refine ih (backfillStep m x) ?_
    rw [backfillStep]
    split_ifs with hc
    · exact hasKey_insert m k _ _ h
    · exact h

theorem foldl_backfillStep_noop (l : List Nat) (m : HRMap)
    (h : ∀ i ∈ l, ¬ (mapGet m ((i : Int) + 1) = "")) :
    l.foldl backfillStep m = m := by
  induction l with
  | nil => rfl
  | cons x tl ih =>
    rw [List.foldl_cons, backfillStep, if_neg (h x (List.mem_cons_self x tl))]
    exact ih (fun i hi => h i (List.mem_cons_of_mem x hi))

theorem range_hole_ne (hole : Int) (k : Int) (hk : hole ≤ k) :
    ∀ i ∈ List.range (hole - 1).toNat, ¬ ((i : Int) + 1 = k) := by
  intro i hi
  have := List.mem_range.mp hi
  omega

/-- After an edit, every hole strictly before `hole` has a recorded
(non-empty) value. -/
theorem applyHoleEdit_filled (hr : HRMap) (hole : Int) (res : String) :
    ∀ i ∈ List.range (hole - 1).toNat,
      ¬ (mapGet (applyHoleEdit hr hole res) ((i : Int) + 1) = "") := by
  intro i hi
  have hir := List.mem_range.mp hi
  have hk1 : (1 : Int) ≤ (i : Int) + 1 := by omega
  have hk2 : (i : Int) + 1 < hole := by omega
  have hkne : ¬ ((i : Int) + 1 = hole) := by omega
  rw [mapGet_applyHoleEdit, if_neg hkne]
  by_cases hg : mapGet hr ((i : Int) + 1) = ""
  · rw [if_pos ⟨hk1, hk2, hg⟩]
    decide
  · rw [if_neg (fun hc => hg hc.2.2)]
    exact hg

/-- The hole edit is idempotent on the hole map. -/
theorem applyHoleEdit_idem (hr : HRMap) (hole : Int) (res : String) :
    applyHoleEdit (applyHoleEdit hr hole res) hole res = applyHoleEdit hr hole res := by
  have hnoop : backfill (applyHoleEdit hr hole res) hole = applyHoleEdit hr hole res :=
    foldl_backfillStep_noop _ _ (applyHoleEdit_filled hr hole res)
  by_cases hres : res = ""
  · subst hres
    have hnk : noKey (applyHoleEdit hr hole "") hole := by
      rw [applyHoleEdit, if_pos rfl, backfill]
      exact foldl_backfillStep_noKey _ _ _ (range_hole_ne hole hole le_rfl)
        (noKey_erase hr hole)
    rw [show applyHoleEdit (applyHoleEdit hr hole "") hole "" =
        backfill (assocErase (applyHoleEdit hr hole "") hole) hole from by
      rw [applyHoleEdit, if_pos rfl]]
    rw [erase_eq_of_noKey _ _ hnk, hnoop]
  · have hK : assocHasKey (applyHoleEdit hr hole res) hole = true := by
      rw [applyHoleEdit, if_neg hres, backfill]
      exact foldl_backfillStep_hasKey _ _ _ (hasKey_insert_self hr hole res)
    have hAV : allKeyVal (applyHoleEdit hr hole res) hole res := by
      rw [applyHoleEdit, if_neg hres, backfill]
      exact foldl_backfillStep_allKeyVal _ _ _ _ (range_hole_ne hole hole le_rfl)
        (allKeyVal_insert_self hr hole res)
    rw [show applyHoleEdit (applyHoleEdit hr hole res) hole res =
        backfill (assocInsert (applyHoleEdit hr hole res) hole res) hole from by
      rw [applyHoleEdit, if_neg hres]]
    rw [insert_eq_of_allKeyVal _ _ _ hK hAV, hnoop]

example :
    applyHoleEdit [] 5 "team1" =
      [((5 : Int), "team1"), (1, "halved"), (2, "halved"), (3, "halved"), (4, "halved")] := by
  decide

example :
    applyHoleEdit (applyHoleEdit [] 1 "team2") 5 "team1" =
      [((1 : Int), "team2"), (5, "team1"), (2, "halved"), (3, "halved"), (4, "halved")] := by
  decide

/-- The per-match mutation of `UpdateHoleResult`: nil-check on the hole map,
apply the edit, recompute `(result, score)` via the Calculator with the two
teams' current names. -/
def updateMatchHole (team1Name team2Name : String) (hole : Int) (result : String)
    (m : Match) : Match :=
  let hr2 := applyHoleEdit (m.holeResults.getD []) hole result
  let rs := CalculateMatchPlayResult hr2 team1Name team2Name
  { m with holeResults := some hr2, result := rs.1, score := rs.2 }

theorem updateMatchHole_id (n1 n2 : String) (hole : Int) (res : String) (m : Match) :
    (updateMatchHole n1 n2 hole res m).id = m.id := rfl

theorem updateMatchHole_holeResults (n1 n2 : String) (hole : Int) (res : String) (m : Match) :
    (updateMatchHole n1 n2 hole res m).holeResults =
      some (applyHoleEdit (m.holeResults.getD []) hole res) := rfl

theorem updateMatchHole_result_score (n1 n2 : String) (hole : Int) (res : String) (m : Match) :
    ((updateMatchHole n1 n2 hole res m).result, (updateMatchHole n1 n2 hole res m).score) =
      CalculateMatchPlayResult (applyHoleEdit (m.holeResults.getD []) hole res) n1 n2 := rfl

theorem updateMatchHole_idem (n1 n2 : String) (hole : Int) (res : String) (m : Match) :
    updateMatchHole n1 n2 hole res (updateMatchHole n1 n2 hole res m) =
      updateMatchHole n1 n2 hole res m := by
  simp only [updateMatchHole, Option.getD_some, applyHoleEdit_idem]

/-- Errors of the store mutation paths; all variants are NotFound
conditions (`fmt.Errorf("... not found ...")` in the Go sources). -/
inductive StoreErr where
  | tournamentNotFound (id : String)
  | roundNotFound (roundNumber : Int)
  | matchNotFound (matchID : String) (roundNumber : Int)
deriving DecidableEq, Repr

/-- The inner loop of `UpdateHoleResult` over a round's matches: update the
first match whose identifier equals `matchID`; `none` means
`"match not found in round"`. -/
def updateHoleInMatches (t1 t2 : String) (matchID : String) (hole : Int) (result : String) :
    List Match → Option (List Match)
  | [] => none
  | m :: rest =>
    if m.id == matchID then some (updateMatchHole t1 t2 hole result m :: rest)
    else (updateHoleInMatches t1 t2 matchID hole result rest).map (fun ms => m :: ms)

/-- The outer loop of `UpdateHoleResult` over the tournament's rounds: find
the first round with the given number, then update the match inside it. -/
def updateHoleInRounds (t1 t2 : String) (roundNumber : Int) (matchID : String) (hole : Int)
    (result : String) : List Round → Except StoreErr (List Round)
  | [] => .error (.roundNotFound roundNumber)
  | r :: rest =>
    if r.number == roundNumber then
      match updateHoleInMatches t1 t2 matchID hole result (r.matches'.getD []) with
      | some ms => .ok ({ r with matches' := some ms } :: rest)
      | none => .error (.matchNotFound matchID roundNumber)
    else
      match updateHoleInRounds t1 t2 roundNumber matchID hole result rest with
      | .ok rs => .ok (r :: rs)
      | .error e => .error e

/-- `UpdateHoleResult` applied to one tournament value: locate round and
match, edit the hole map, recompute the match result, bump the update
timestamp. -/
def UpdateHoleResult (t : Tournament) (roundNumber : Int) (matchID : String) (hole : Int)
    (result : String) (now : Int) : Except StoreErr Tournament :=
  match updateHoleInRounds t.team1.name t.team2.name roundNumber matchID hole result
      (t.rounds.getD []) with
  | .ok rs => .ok { t with rounds := some rs, updatedAt := now }
  | .error e => .error e

/-- Round lookup as the Go loops perform it: first round whose `Number`
field equals the requested number. -/
def findRound (t : Tournament) (roundNumber : Int) : Option Round :=
  (t.rounds.getD []).find? (fun r => r.number == roundNumber)

/-- Match lookup within a round: first match with the given identifier. -/
def findMatchIn (r : Round) (matchID : String) : Option Match :=
  (r.matches'.getD []).find? (fun m => m.id == matchID)

/-- The match addressed by `(roundNumber, matchID)` inside a tournament. -/
def matchById (t : Tournament) (roundNumber : Int) (matchID : String) : Option Match :=
  (findRound t roundNumber).bind (fun r => findMatchIn r matchID)

theorem find?_cons_pos' {α : Type} (p : α → Bool) (a : α) (l : List α) (h : p a = true) :
    (a :: l).find? p = some a := by
  simp [List.find?_cons, h]

theorem find?_cons_neg' {α : Type} (p : α → Bool) (a : α) (l : List α) (h : ¬ p a = true) :
    (a :: l).find? p = l.find? p := by
  simp [List.find?_cons, h]

theorem updateHoleInMatches_isSome_iff (t1 t2 mid : String) (hole : Int) (res : String)
    (ms : List Match) :
    (updateHoleInMatches t1 t2 mid hole res ms).isSome =
      (ms.find? (fun m => m.id == mid)).isSome := by
  induction ms with
  | nil => rfl
  | cons m rest ih =>
    by_cases hm : m.id == mid
    · simp [updateHoleInMatches, find?_cons_pos' (fun m => m.id == mid) m rest hm, hm]
    · rw [show updateHoleInMatches t1 t2 mid hole res (m :: rest) =
          (updateHoleInMatches t1 t2 mid hole res rest).map (fun ms => m :: ms) from by
        simp [updateHoleInMatches, hm]]
      rw [find?_cons_neg' (fun m => m.id == mid) m rest hm, ← ih]
      cases updateHoleInMatches t1 t2 mid hole res rest <;> rfl

theorem updateHoleInMatches_found (t1 t2 mid : String) (hole : Int) (res : String)
    (ms ms' : List Match) (m0 : Match)
    (hupd : updateHoleInMatches t1 t2 mid hole res ms = some ms')
    (hfind : ms.find? (fun m => m.id == mid) = some m0) :
    ms'.find? (fun m => m.id == mid) = some (updateMatchHole t1 t2 hole res m0) := by
  induction ms generalizing ms' with
  | nil => simp [updateHoleInMatches] at hupd
  | cons m rest ih =>
    by_cases hm : m.id == mid
    · rw [find?_cons_pos' (fun m => m.id == mid) m rest hm] at hfind
      obtain rfl := Option.some.inj hfind
      rw [show updateHoleInMatches t1 t2 mid hole res (m :: rest) =
          some (updateMatchHole t1 t2 hole res m :: rest) from by
        simp [updateHoleInMatches, hm]] at hupd
      obtain rfl := Option.some.inj hupd
      refine find?_cons_pos' (fun m => m.id == mid) _ rest ?_
      show ((updateMatchHole t1 t2 hole res m).id == mid) = true
      rw [updateMatchHole_id]
      exact hm
    · rw [find?_cons_neg' (fun m => m.id == mid) m rest hm] at hfind
      rw [show updateHoleInMatches t1 t2 mid hole res (m :: rest) =
          (updateHoleInMatches t1 t2 mid hole res rest).map (fun ms => m :: ms) from by
        simp [updateHoleInMatches, hm]] at hupd
      obtain ⟨tl, htl, rfl⟩ := Option.map_eq_some'.mp hupd
      rw [find?_cons_neg' (fun m => m.id == mid) m tl hm]
      exact ih tl htl hfind

theorem updateHoleInMatches_idem (t1 t2 mid : String) (hole : Int) (res : String)
    (ms ms' : List Match)
    (h : updateHoleInMatches t1 t2 mid hole res ms = some ms') :
    updateHoleInMatches t1 t2 mid hole res ms' = some ms' := by
  induction ms generalizing ms' with
  | nil => simp [updateHoleInMatches] at h
  | cons m rest ih =>
    by_cases hm : m.id == mid
    · rw [show updateHoleInMatches t1 t2 mid hole res (m :: rest) =
          some (updateMatchHole t1 t2 hole res m :: rest) from by
        simp [updateHoleInMatches, hm]] at h
      obtain rfl := Option.some.inj h
      have hid : ((updateMatchHole t1 t2 hole res m).id == mid) = true := by
        rw [updateMatchHole_id]
        exact hm
      rw [show updateHoleInMatches t1 t2 mid hole res
            (updateMatchHole t1 t2 hole res m :: rest) =
          some (updateMatchHole t1 t2 hole res (updateMatchHole t1 t2 hole res m) :: rest)
          from by simp [updateHoleInMatches, hid]]
      rw [updateMatchHole_idem]
    · rw [show updateHoleInMatches t1 t2 mid hole res (m :: rest) =
          (updateHoleInMatches t1 t2 mid hole res rest).map (fun ms => m :: ms) from by
        simp [updateHoleInMatches, hm]] at h
      obtain ⟨tl, htl, rfl⟩ := Option.map_eq_some'.mp h
      rw [show updateHoleInMatches t1 t2 mid hole res (m :: tl) =
          (updateHoleInMatches t1 t2 mid hole res tl).map (fun ms => m :: ms) from by
        simp [updateHoleInMatches, hm]]
      rw [ih tl htl]
      rfl

theorem updateHoleInRounds_ok_iff (t1 t2 : String) (rn : Int) (mid : String) (hole : Int)
    (res : String) (rs : List Round) :
    (∃ rs', updateHoleInRounds t1 t2 rn mid hole res rs = .ok rs') ↔
      (∃ r, rs.find? (fun r => r.number == rn) = some r ∧ (findMatchIn r mid).isSome) := by
  induction rs with
  | nil =>
    constructor
    · rintro ⟨rs', h⟩
      simp [updateHoleInRounds] at h
    · rintro ⟨r, hr, _⟩
      simp at hr
  | cons r rest ih =>
    by_cases hrn : (r.number == rn) = true
    · rw [find?_cons_pos' (fun r => r.number == rn) r rest hrn]
      cases hm : updateHoleInMatches t1 t2 mid hole res (r.matches'.getD []) with
      | none =>
        have hnone : (findMatchIn r mid).isSome = false := by
          rw [findMatchIn, ← updateHoleInMatches_isSome_iff t1 t2 mid hole res, hm]
          rfl
        constructor
        · rintro ⟨rs', h⟩
          rw [show updateHoleInRounds t1 t2 rn mid hole res (r :: rest) =
              .error (.matchNotFound mid rn) from by
            simp [updateHoleInRounds, hrn, hm]] at h
          simp at h
        · rintro ⟨r', hr', hs⟩
          obtain rfl := Option.some.inj hr'
          rw [hnone] at hs
          simp at hs
      | some ms =>
        have hsome : (findMatchIn r mid).isSome = true := by
          rw [findMatchIn, ← updateHoleInMatches_isSome_iff t1 t2 mid hole res, hm]
          rfl
        constructor
        · intro _
          exact ⟨r, rfl, hsome⟩
        · intro _
          refine ⟨{ r with matches' := some ms } :: rest, ?_⟩
          simp [updateHoleInRounds, hrn, hm]
    · rw [find?_cons_neg' (fun r => r.number == rn) r rest hrn, ← ih]
      constructor
      · rintro ⟨rs', h⟩
        rw [show updateHoleInRounds t1 t2 rn mid hole res (r :: rest) =
            (match updateHoleInRounds t1 t2 rn mid hole res rest with
              | .ok rs0 => .ok (r :: rs0)
              | .error e => .error e) from by
          simp [updateHoleInRounds, hrn]] at h
        cases hrec : updateHoleInRounds t1 t2 rn mid hole res rest with
        | ok rs0 => exact ⟨rs0, rfl⟩
        | error e =>
          rw [hrec] at h
          simp at h
      · rintro ⟨rs0, hrec⟩
        refine ⟨r :: rs0, ?_⟩
        simp [updateHoleInRounds, hrn, hrec]

theorem updateHoleInRounds_found (t1 t2 : String) (rn : Int) (mid : String) (hole : Int)
    (res : String) (rs rs' : List Round) (r0 : Round) (m0 : Match)
    (hupd : updateHoleInRounds t1 t2 rn mid hole res rs = .ok rs')
    (hr : rs.find? (fun r => r.number == rn) = some r0)
    (hm : findMatchIn r0 mid = some m0) :
    ∃ r', rs'.find? (fun r => r.number == rn) = some r' ∧
      findMatchIn r' mid = some (updateMatchHole t1 t2 hole res m0) := by
  induction rs generalizing rs' with
  | nil => simp [updateHoleInRounds] at hupd
  | cons r rest ih =>
    by_cases hrn : (r.number == rn) = true
    · rw [find?_cons_pos' (fun r => r.number == rn) r rest hrn] at hr
      obtain rfl := Option.some.inj hr
      cases hmm : updateHoleInMatches t1 t2 mid hole res (r.matches'.getD []) with
      | none =>
        rw [show updateHoleInRounds t1 t2 rn mid hole res (r :: rest) =
            .error (.matchNotFound mid rn) from by
          simp [updateHoleInRounds, hrn, hmm]] at hupd
        simp at hupd
      | some ms =>
        rw [show updateHoleInRounds t1 t2 rn mid hole res (r :: rest) =
            .ok ({ r with matches' := some ms } :: rest) from by
          simp [updateHoleInRounds, hrn, hmm]] at hupd
        obtain rfl := Except.ok.inj hupd
        refine ⟨{ r with matches' := some ms }, ?_, ?_⟩
        · exact find?_cons_pos' (fun r => r.number == rn) { r with matches' := some ms } rest hrn
        · exact updateHoleInMatches_found t1 t2 mid hole res _ ms m0 hmm hm
    · rw [find?_cons_neg' (fun r => r.number == rn) r rest hrn] at hr
      rw [show updateHoleInRounds t1 t2 rn mid hole res (r :: rest) =
          (match updateHoleInRounds t1 t2 rn mid hole res rest with
            | .ok rs0 => .ok (r :: rs0)
            | .error e => .error e) from by
        simp [updateHoleInRounds, hrn]] at hupd
      cases hrec : updateHoleInRounds t1 t2 rn mid hole res rest with
      | error e =>
        rw [hrec] at hupd
        simp at hupd
      | ok rs0 =>
        rw [hrec] at hupd
        obtain rfl := Except.ok.inj hupd
        obtain ⟨r', h1, h2⟩ := ih rs0 hrec hr
        refine ⟨r', ?_, h2⟩
        rw [find?_cons_neg' (fun r => r.number == rn) r rs0 hrn]
        exact h1

theorem updateHoleInRounds_idem (t1 t2 : String) (rn : Int) (mid : String) (hole : Int)
    (res : String) (rs rs' : List Round)
    (h : updateHoleInRounds t1 t2 rn mid hole res rs = .ok rs') :
    updateHoleInRounds t1 t2 rn mid hole res rs' = .ok rs' := by
  induction rs generalizing rs' with
  | nil => simp [updateHoleInRounds] at h
  | cons r rest ih =>
    by_cases hrn : (r.number == rn) = true
    · cases hmm : updateHoleInMatches t1 t2 mid hole res (r.matches'.getD []) with
      | none =>
        rw [show updateHoleInRounds t1 t2 rn mid hole res (r :: rest) =
            .error (.matchNotFound mid rn) from by
          simp [updateHoleInRounds, hrn, hmm]] at h
        simp at h
      | some ms =>
        rw [show updateHoleInRounds t1 t2 rn mid hole res (r :: rest) =
            .ok ({ r with matches' := some ms } :: rest) from by
          simp [updateHoleInRounds, hrn, hmm]] at h
        obtain rfl := Except.ok.inj h
        have hms : updateHoleInMatches t1 t2 mid hole res ms = some ms :=
          updateHoleInMatches_idem t1 t2 mid hole res _ ms hmm
        rw [show updateHoleInRounds t1 t2 rn mid hole res
              ({ r with matches' := some ms } :: rest) =
            .ok ({ r with matches' := some ms } :: rest) from by
          simp [updateHoleInRounds, hrn, hms]]
    · rw [show updateHoleInRounds t1 t2 rn mid hole res (r :: rest) =
          (match updateHoleInRounds t1 t2 rn mid hole res rest with
            | .ok rs0 => .ok (r :: rs0)
            | .error e => .error e) from by
        simp [updateHoleInRounds, hrn]] at h
      cases hrec : updateHoleInRounds t1 t2 rn mid hole res rest with
      | error e =>
        rw [hrec] at h
        simp at h
      | ok rs0 =>
        rw [hrec] at h
        obtain rfl := Except.ok.inj h
        have := ih rs0 hrec
        rw [show updateHoleInRounds t1 t2 rn mid hole res (r :: rs0) =
            (match updateHoleInRounds t1 t2 rn mid hole res rs0 with
              | .ok rs1 => .ok (r :: rs1)
              | .error e => .error e) from by
          simp [updateHoleInRounds, hrn]]
        rw [this]

theorem updateHoleResult_ok_inv (t : Tournament) (rn : Int) (mid : String) (hole : Int)
    (res : String) (now : Int) (t' : Tournament)
    (h : UpdateHoleResult t rn mid hole res now = .ok t') :
    ∃ rs', updateHoleInRounds t.team1.name t.team2.name rn mid hole res
        (t.rounds.getD []) = .ok rs' ∧
      t' = { t with rounds := some rs', updatedAt := now } := by
  rw [UpdateHoleResult] at h
  cases hrec : updateHoleInRounds t.team1.name t.team2.name rn mid hole res
      (t.rounds.getD []) with
  | error e =>
    rw [hrec] at h
    simp at h
  | ok rs' =>
    rw [hrec] at h
    exact ⟨rs', rfl, (Except.ok.inj h).symm⟩

theorem matchById_isSome_iff (t : Tournament) (rn : Int) (mid : String) :
    (matchById t rn mid).isSome = true ↔
      ∃ r, findRound t rn = some r ∧ (findMatchIn r mid).isSome := by
  rw [matchById]
  cases hr : findRound t rn with
  | none =>
    simp
  | some r =>
    simp [Option.bind]

theorem updateHoleResultT_ok_iff (t : Tournament) (rn : Int) (mid : String) (hole : Int)
    (res : String) (now : Int) :
    (∃ t', UpdateHoleResult t rn mid hole res now = .ok t') ↔
      (matchById t rn mid).isSome = true := by
  rw [matchById_isSome_iff]
  simp only [findRound]
  rw [← updateHoleInRounds_ok_iff t.team1.name t.team2.name rn mid hole res (t.rounds.getD [])]
  constructor
  · rintro ⟨t', h⟩
    obtain ⟨rs', hrs, _⟩ := updateHoleResult_ok_inv t rn mid hole res now t' h
    exact ⟨rs', hrs⟩
  · rintro ⟨rs', hrs⟩
    refine ⟨{ t with rounds := some rs', updatedAt := now }, ?_⟩
    rw [UpdateHoleResult, hrs]

theorem updateHoleResultT_found (t : Tournament) (rn : Int) (mid : String) (hole : Int)
    (res : String) (now : Int) (t' : Tournament) (m0 : Match)
    (h : UpdateHoleResult t rn mid hole res now = .ok t')
    (hm : matchById t rn mid = some m0) :
    matchById t' rn mid = some (updateMatchHole t.team1.name t.team2.name hole res m0) := by
  obtain ⟨rs', hrs, rfl⟩ := updateHoleResult_ok_inv t rn mid hole res now t' h
  rw [matchById] at hm
  cases hr : findRound t rn with
  | none =>
    rw [hr] at hm
    simp at hm
  | some r0 =>
    rw [hr] at hm
    have hm0 : findMatchIn r0 mid = some m0 := by simpa [Option.bind] using hm
    obtain ⟨r', h1, h2⟩ := updateHoleInRounds_found t.team1.name t.team2.name rn mid hole res
      (t.rounds.getD []) rs' r0 m0 hrs hr hm0
    rw [show matchById { t with rounds := some rs', updatedAt := now } rn mid =
        (rs'.find? (fun r => r.number == rn)).bind (fun r => findMatchIn r mid) from rfl]
    rw [h1]
    simpa [Option.bind] using h2

theorem updateHoleResultT_idem (t : Tournament) (rn : Int) (mid : String) (hole : Int)
    (res : String) (now : Int) (t' : Tournament)
    (h : UpdateHoleResult t rn mid hole res now = .ok t') :
    UpdateHoleResult t' rn mid hole res now = .ok t' := by
  obtain ⟨rs', hrs, rfl⟩ := updateHoleResult_ok_inv t rn mid hole res now t' h
  have hidem := updateHoleInRounds_idem t.team1.name t.team2.name rn mid hole res
    (t.rounds.getD []) rs' hrs
  have hshape : UpdateHoleResult { t with rounds := some rs', updatedAt := now }
      rn mid hole res now =
      match updateHoleInRounds t.team1.name t.team2.name rn mid hole res rs' with
      | .ok rs => .ok { t with rounds := some rs, updatedAt := now }
      | .error e => .error e := rfl
  rw [hshape, hidem]

theorem updateHoleResultT_id (t : Tournament) (rn : Int) (mid : String) (hole : Int)
    (res : String) (now : Int) (t' : Tournament)
    (h : UpdateHoleResult t rn mid hole res now = .ok t') : t'.id = t.id := by
  obtain ⟨rs', _, rfl⟩ := updateHoleResult_ok_inv t rn mid hole res now t' h
  rfl

theorem updateHoleResultT_updatedAt (t : Tournament) (rn : Int) (mid : String) (hole : Int)
    (res : String) (now : Int) (t' : Tournament)
    (h : UpdateHoleResult t rn mid hole res now = .ok t') : t'.updatedAt = now := by
  obtain ⟨rs', _, rfl⟩ := updateHoleResult_ok_inv t rn mid hole res now t' h
  rfl

theorem updateHoleResultT_team_names (t : Tournament) (rn : Int) (mid : String) (hole : Int)
    (res : String) (now : Int) (t' : Tournament)
    (h : UpdateHoleResult t rn mid hole res now = .ok t') :
    t'.team1.name = t.team1.name ∧ t'.team2.name = t.team2.name := by
  obtain ⟨rs', _, rfl⟩ := updateHoleResult_ok_inv t rn mid hole res now t' h
  exact ⟨rfl, rfl⟩

/-! ### Store level (`FileStore` / `FirestoreStore`) -/

/-- A store state: records keyed by tournament id (file name / document id). -/
abbrev StoreState := List (String × Tournament)

/-- `readTournament` / document get by id. -/
def storeFind (s : StoreState) (tid : String) : Option Tournament := assocFind s tid

/-- `writeTournament`: the record is written under the tournament's own id
field (`f.path(t.ID)` / `Doc(t.ID)`). -/
def storeWrite (s : StoreState) (t : Tournament) : StoreState := assocInsert s t.id t

/-- `UpdateHoleResult` of the file store (the Firestore implementation is
line-for-line the same pure logic): load by id — NotFound when absent —
apply the mutation, persist the whole tournament on success.  The result is
the pair (returned error, resulting store state); a failure leaves the
state untouched because the write only happens on the success path. -/
def storeUpdateHoleResult (s : StoreState) (tid : String) (rn : Int) (mid : String)
    (hole : Int) (res : String) (now : Int) : Option StoreErr × StoreState :=
  match storeFind s tid with
  | none => (some (.tournamentNotFound tid), s)
  | some t =>
    match UpdateHoleResult t rn mid hole res now with
    | .ok t' => (none, storeWrite s t')
    | .error e => (some e, s)

/-- Does the store contain the addressed tournament, round and match? -/
def addressedExists (s : StoreState) (tid : String) (rn : Int) (mid : String) : Bool :=
  match storeFind s tid with
  | none => false
  | some t => (matchById t rn mid).isSome

theorem assocFind_some_mem {κ υ : Type} [BEq κ] [LawfulBEq κ]
    (m : List (κ × υ)) (k : κ) (v : υ) (h : assocFind m k = some v) :
    ∃ p ∈ m, p.1 = k ∧ p.2 = v := by
  rw [assocFind] at h
  cases hf : m.find? (fun p => p.1 == k) with
  | none =>
    rw [hf] at h
    simp at h
  | some p =>
    rw [hf] at h
    have hmem := List.mem_of_find?_eq_some hf
    have hpk := List.find?_some hf
    refine ⟨p, hmem, by simpa using hpk, ?_⟩
    simpa using h

theorem mapGet_ne_empty_mem (hr : HRMap) (k : Int) (h : ¬ mapGet hr k = "") :
    ∃ p ∈ hr, p.2 = mapGet hr k := by
  rw [mapGet] at h ⊢
  cases hf : assocFind hr k with
  | none =>
    rw [hf] at h
    simp at h
  | some v =>
    obtain ⟨p, hp, _, hv⟩ := assocFind_some_mem hr k v hf
    exact ⟨p, hp, hv⟩

/-- When at least one of holes 1..18 has a counted value, the Calculator
never returns the fresh `(pending, "")` state. -/
theorem calc_ne_pending_empty (hr : HRMap) (n1 n2 : String) (hp : 1 ≤ specPlayed hr) :
    ¬ (CalculateMatchPlayResult hr n1 n2 = (MatchResult.pending, "")) := by
  rw [calc_eq_spec]
  intro hc
  have h0 : ("").length = 0 := rfl
  have h1 : (" UP thru ").length = 9 := rfl
  have h2 : ("A/S thru ").length = 9 := rfl
  have h3 : (" ").length = 1 := rfl
  simp only [specCalculateMatchPlayResult] at hc
  set L : Int := (specT1Wins hr : Int) - (specT2Wins hr : Int) with hLdef
  set R : Int := 18 - (specPlayed hr : Int) with hRdef
  by_cases c0 : specPlayed hr = 0
  · omega
  · rw [if_neg c0] at hc
    by_cases c1 : 0 < L ∧ R < L
    · rw [if_pos c1] at hc
      exact absurd (congrArg Prod.fst hc) (by simp)
    · rw [if_neg c1] at hc
      by_cases c2 : 0 < -L ∧ R < -L
      · rw [if_pos c2] at hc
        exact absurd (congrArg Prod.fst hc) (by simp)
      · rw [if_neg c2] at hc
        by_cases c3 : R = 0 ∧ L = 0
        · rw [if_pos c3] at hc
          exact absurd (congrArg Prod.snd hc) (by simp)
        · rw [if_neg c3] at hc
          by_cases c4 : 0 < L
          · rw [if_pos c4] at hc
            have hlen := congrArg String.length (congrArg Prod.snd hc)
            simp only [String.length_append] at hlen
            omega
          · rw [if_neg c4] at hc
            by_cases c5 : L < 0
            · rw [if_pos c5] at hc
              have hlen := congrArg String.length (congrArg Prod.snd hc)
              simp only [String.length_append] at hlen
              omega
            · rw [if_neg c5] at hc
              have hlen := congrArg String.length (congrArg Prod.snd hc)
              simp only [String.length_append] at hlen
              omega

/-- C2: after a successful set-hole-result for hole `h` with a non-empty
outcome, the stored match's hole map holds `outcome` at `h`, every hole
strictly before `h` that previously had no recorded outcome is recorded as
halved, and every other hole — in particular every hole at or after `h`
other than `h`, and every earlier hole that already had an outcome (such as
hole 1 recorded before hole 5) — is unchanged. -/
theorem setHoleResult_backfill (t : Tournament) (rn : Int) (mid : String) (h : Int)
    (outcome : String) (now : Int) (t' : Tournament) (m0 : Match)
    (hne : ¬ outcome = "")
    (hm : matchById t rn mid = some m0)
    (hok : UpdateHoleResult t rn mid h outcome now = .ok t') :
    ∃ m', matchById t' rn mid = some m' ∧
      ∀ k : Int, mapGet (m'.holeResults.getD []) k =
        if k = h then outcome
        else if 1 ≤ k ∧ k < h ∧ mapGet (m0.holeResults.getD []) k = "" then "halved"
        else mapGet (m0.holeResults.getD []) k := by
  refine ⟨updateMatchHole t.team1.name t.team2.name h outcome m0,
    updateHoleResultT_found t rn mid h outcome now t' m0 hok hm, ?_⟩
  intro k
  rw [updateMatchHole_holeResults, Option.getD_some]
  exact mapGet_applyHoleEdit _ h outcome k

/-- C7: set-hole-result is idempotent at the store level — running the same
edit twice leaves exactly the stored state of running it once (on failure
nothing was written, on success the second run recomputes the same
tournament and overwrites the record with itself). -/
theorem setHoleResult_idempotent (s : StoreState) (tid : String) (rn : Int) (mid : String)
    (hole : Int) (res : String) (now : Int) :
    (storeUpdateHoleResult (storeUpdateHoleResult s tid rn mid hole res now).2
        tid rn mid hole res now).2 =
      (storeUpdateHoleResult s tid rn mid hole res now).2 := by
  cases hf : storeFind s tid with
  | none => simp [storeUpdateHoleResult, hf]
  | some t =>
    cases hU : UpdateHoleResult t rn mid hole res now with
    | error e => simp [storeUpdateHoleResult, hf, hU]
    | ok t' =>
      have hid : t'.id = t.id := updateHoleResultT_id t rn mid hole res now t' hU
      have hidem : UpdateHoleResult t' rn mid hole res now = .ok t' :=
        updateHoleResultT_idem t rn mid hole res now t' hU
      have houter : (storeUpdateHoleResult s tid rn mid hole res now).2 = storeWrite s t' := by
        simp [storeUpdateHoleResult, hf, hU]
      rw [houter]
      by_cases htid : t.id = tid
      · have hfind2 : storeFind (storeWrite s t') tid = some t' := by
          rw [storeFind, storeWrite, hid, htid]
          exact assocFind_insert_self s tid t'
        rw [show (storeUpdateHoleResult (storeWrite s t') tid rn mid hole res now).2 =
            storeWrite (storeWrite s t') t' from by
          simp [storeUpdateHoleResult, hfind2, hidem]]
        rw [storeWrite, storeWrite, assocInsert_insert_same]
      · have hfind2 : storeFind (storeWrite s t') tid = some t := by
          rw [storeFind, storeWrite, hid]
          rw [assocFind_insert_ne s t.id tid t' (fun hc => htid hc.symm)]
          exact hf
        rw [show (storeUpdateHoleResult (storeWrite s t') tid rn mid hole res now).2 =
            storeWrite (storeWrite s t') t' from by
          simp [storeUpdateHoleResult, hfind2, hU]]
        rw [storeWrite, storeWrite, assocInsert_insert_same]

/-- C10: un-playing hole `h` (empty outcome) removes hole `h`'s entry but
still backfills every earlier unrecorded hole as halved; consequently for
`h ≥ 2` (and a well-formed map whose values are the three legal outcomes)
the recomputed match can never return to the fresh `(pending, "")` state,
because holes `1..h-1` end up recorded. -/
theorem setHoleResult_unplay (t : Tournament) (rn : Int) (mid : String) (h : Int)
    (now : Int) (t' : Tournament) (m0 : Match)
    (hh : 2 ≤ h)
    (hvals : ∀ p ∈ (m0.holeResults.getD []),
      p.2 = "team1" ∨ p.2 = "team2" ∨ p.2 = "halved")
    (hm : matchById t rn mid = some m0)
    (hok : UpdateHoleResult t rn mid h "" now = .ok t') :
    ∃ m', matchById t' rn mid = some m' ∧
      mapGet (m'.holeResults.getD []) h = "" ∧
      (∀ k : Int, 1 ≤ k → k < h → mapGet (m0.holeResults.getD []) k = "" →
        mapGet (m'.holeResults.getD []) k = "halved") ∧
      ¬ ((m'.result, m'.score) = (MatchResult.pending, "")) := by
  refine ⟨updateMatchHole t.team1.name t.team2.name h "" m0,
    updateHoleResultT_found t rn mid h "" now t' m0 hok hm, ?_, ?_, ?_⟩
  · rw [updateMatchHole_holeResults, Option.getD_some, mapGet_applyHoleEdit, if_pos rfl]
  · intro k hk1 hk2 hk3
    rw [updateMatchHole_holeResults, Option.getD_some, mapGet_applyHoleEdit,
      if_neg (by omega), if_pos ⟨hk1, hk2, hk3⟩]
  · rw [updateMatchHole_result_score]
    refine calc_ne_pending_empty _ _ _ ?_
    have hone : isPlayedOutcome
        (mapGet (applyHoleEdit (m0.holeResults.getD []) h "") 1) = true := by
      rw [mapGet_applyHoleEdit, if_neg (by omega)]
      by_cases hg : mapGet (m0.holeResults.getD []) 1 = ""
      · rw [if_pos ⟨le_refl 1, by omega, hg⟩]
        decide
      · rw [if_neg (fun hc => hg hc.2.2)]
        obtain ⟨p, hp, hpv⟩ := mapGet_ne_empty_mem _ 1 hg
        rcases hvals p hp with hv | hv | hv <;>
          simp [isPlayedOutcome, ← hpv, hv]
    have : 0 < specPlayed (applyHoleEdit (m0.holeResults.getD []) h "") := by
      rw [specPlayed]
      refine List.countP_pos.mpr ?_
      refine ⟨0, by decide, ?_⟩
      simpa using hone
    omega

/-- C4: set-hole-result on the store fails exactly when the tournament id,
the round number (including any number outside the fixed template — the
lookup scans round records, it never indexes), or the match id is absent;
all failure variants are NotFound (`StoreErr`), a failure leaves the store
unchanged, and on success the persisted tournament carries the bumped
update timestamp and a match whose `(result, score)` is exactly the
Calculator applied to its updated hole map and the teams' current names. -/
theorem setHoleResult_notFound_iff (s : StoreState) (tid : String) (rn : Int) (mid : String)
    (hole : Int) (res : String) (now : Int)
    (hwf : ∀ p ∈ s, p.2.id = p.1) :
    ((storeUpdateHoleResult s tid rn mid hole res now).1 = none ↔
        addressedExists s tid rn mid = true)
    ∧ ((storeUpdateHoleResult s tid rn mid hole res now).1 ≠ none →
        (storeUpdateHoleResult s tid rn mid hole res now).2 = s)
    ∧ (addressedExists s tid rn mid = true →
        ∃ t', storeFind (storeUpdateHoleResult s tid rn mid hole res now).2 tid = some t' ∧
          t'.updatedAt = now ∧
          ∃ m', matchById t' rn mid = some m' ∧
            m'.result = (CalculateMatchPlayResult (m'.holeResults.getD [])
                t'.team1.name t'.team2.name).1 ∧
            m'.score = (CalculateMatchPlayResult (m'.holeResults.getD [])
                t'.team1.name t'.team2.name).2) := by
  cases hf : storeFind s tid with
  | none =>
    refine ⟨?_, ?_, ?_⟩
    · simp [storeUpdateHoleResult, hf, addressedExists]
    · intro _
      simp [storeUpdateHoleResult, hf]
    · intro hex
      rw [addressedExists, hf] at hex
      simp at hex
  | some t =>
    have hex_eq : addressedExists s tid rn mid = (matchById t rn mid).isSome := by
      rw [addressedExists, hf]
    have htid : t.id = tid := by
      obtain ⟨p, hp, hpk, hpv⟩ := assocFind_some_mem s tid t hf
      rw [← hpv, hwf p hp, hpk]
    cases hU : UpdateHoleResult t rn mid hole res now with
    | error e =>
      have hnotex : ¬ ((matchById t rn mid).isSome = true) := by
        intro hex
        obtain ⟨t', ht'⟩ := (updateHoleResultT_ok_iff t rn mid hole res now).mpr hex
        rw [hU] at ht'
        simp at ht'
      refine ⟨?_, ?_, ?_⟩
      · rw [hex_eq]
        simp only [storeUpdateHoleResult, hf, hU]
        simp [hnotex]
      · intro _
        simp [storeUpdateHoleResult, hf, hU]
      · intro hex
        rw [hex_eq] at hex
        exact absurd hex hnotex
    | ok t' =>
      have hfst : (storeUpdateHoleResult s tid rn mid hole res now).1 = none := by
        simp [storeUpdateHoleResult, hf, hU]
      have hsnd : (storeUpdateHoleResult s tid rn mid hole res now).2 = storeWrite s t' := by
        simp [storeUpdateHoleResult, hf, hU]
      have hex : (matchById t rn mid).isSome = true :=
        (updateHoleResultT_ok_iff t rn mid hole res now).mp ⟨t', hU⟩
      refine ⟨?_, ?_, ?_⟩
      · rw [hfst, hex_eq, hex]
        simp
      · intro hc
        exact absurd hfst hc
      · intro _
        refine ⟨t', ?_, ?_, ?_⟩
        · rw [hsnd, storeFind, storeWrite,
            updateHoleResultT_id t rn mid hole res now t' hU, htid]
          exact assocFind_insert_self s tid t'
        · exact updateHoleResultT_updatedAt t rn mid hole res now t' hU
        · obtain ⟨m0, hm0⟩ := Option.isSome_iff_exists.mp hex
          refine ⟨updateMatchHole t.team1.name t.team2.name hole res m0,
            updateHoleResultT_found t rn mid hole res now t' m0 hU hm0, ?_, ?_⟩
          · obtain ⟨hn1, hn2⟩ := updateHoleResultT_team_names t rn mid hole res now t' hU
            rw [hn1, hn2, updateMatchHole_holeResults, Option.getD_some]
            exact congrArg Prod.fst (updateMatchHole_result_score t.team1.name t.team2.name
              hole res m0)
          · obtain ⟨hn1, hn2⟩ := updateHoleResultT_team_names t rn mid hole res now t' hU
            rw [hn1, hn2, updateMatchHole_holeResults, Option.getD_some]
            exact congrArg Prod.snd (updateMatchHole_result_score t.team1.name t.team2.name
              hole res m0)

/-! ### Scoreboard (`Tournament.CalculateScoreboard`, models.go 247-282) -/

/-- One iteration of the inner match loop: accumulator is
`(team1Points, team2Points, matchesPlayed)`. -/
def scoreMatchStep (p : Rat) (acc : Rat × Rat × Nat) (m : Match) : Rat × Rat × Nat :=
  match m.result with
  | MatchResult.team1 => (acc.1 + p, acc.2.1, acc.2.2 + 1)
  | MatchResult.team2 => (acc.1, acc.2.1 + p, acc.2.2 + 1)
  | MatchResult.tie => (acc.1 + p / 2, acc.2.1 + p / 2, acc.2.2 + 1)
  | MatchResult.pending => acc

/-- The `RoundScore` built for one round by `CalculateScoreboard`. -/
def roundScoreOf (r : Round) : RoundScore :=
  let ms := r.matches'.getD []
  let acc := ms.foldl (scoreMatchStep r.pointsPerMatch) (0, 0, 0)
  { roundNumber := r.number, roundName := r.name,
    team1Points := acc.1, team2Points := acc.2.1,
    pointsPerMatch := r.pointsPerMatch,
    matchesPlayed := acc.2.2, totalMatches := ms.length }

/-- One iteration of the outer round loop. -/
def scoreboardStep (sb : Scoreboard) (r : Round) : Scoreboard :=
  let rs := roundScoreOf r
  { sb with team1Total := sb.team1Total + rs.team1Points,
            team2Total := sb.team2Total + rs.team2Points,
            roundScores := sb.roundScores ++ [rs] }

/-- `Tournament.CalculateScoreboard`. -/
def CalculateScoreboard (t : Tournament) : Scoreboard :=
  (t.rounds.getD []).foldl scoreboardStep
    { team1Name := t.team1.name, team2Name := t.team2.name,
      team1Total := 0, team2Total := 0, roundScores := [] }

/-- Spec-side per-match contribution to team 1's round points. -/
def matchTeam1Pts (p : Rat) (m : Match) : Rat :=
  if m.result = MatchResult.team1 then p
  else if m.result = MatchResult.tie then p / 2 else 0

/-- Spec-side per-match contribution to team 2's round points. -/
def matchTeam2Pts (p : Rat) (m : Match) : Rat :=
  if m.result = MatchResult.team2 then p
  else if m.result = MatchResult.tie then p / 2 else 0

/-- Spec-side round totals: points are sums of per-match contributions,
matches-played counts the non-pending matches, total counts all of them. -/
def specRoundScore (r : Round) : RoundScore :=
  let ms := r.matches'.getD []
  { roundNumber := r.number, roundName := r.name,
    team1Points := (ms.map (matchTeam1Pts r.pointsPerMatch)).sum,
    team2Points := (ms.map (matchTeam2Pts r.pointsPerMatch)).sum,
    pointsPerMatch := r.pointsPerMatch,
    matchesPlayed := ms.countP (fun m => !(m.result == MatchResult.pending)),
    totalMatches := ms.length }

theorem score_matches_foldl (p : Rat) (l : List Match) (a b : Rat) (c : Nat) :
    l.foldl (scoreMatchStep p) (a, b, c) =
      (a + (l.map (matchTeam1Pts p)).sum, b + (l.map (matchTeam2Pts p)).sum,
       c + l.countP (fun m => !(m.result == MatchResult.pending))) := by
  induction l generalizing a b c with
  | nil => simp
  | cons m tl ih =>
    rw [List.foldl_cons]
    cases hres : m.result with
    | pending =>
      rw [show scoreMatchStep p (a, b, c) m = (a, b, c) from by
        simp [scoreMatchStep, hres], ih]
      simp only [Prod.mk.injEq, List.map_cons, List.sum_cons, List.countP_cons]
      refine ⟨?_, ?_, ?_⟩
      · rw [show matchTeam1Pts p m = 0 from by simp [matchTeam1Pts, hres]]
        ring
      · rw [show matchTeam2Pts p m = 0 from by simp [matchTeam2Pts, hres]]
        ring
      · rw [show (!(m.result == MatchResult.pending)) = false from by simp [hres]]
        simp
    | team1 =>
      rw [show scoreMatchStep p (a, b, c) m = (a + p, b, c + 1) from by
        simp [scoreMatchStep, hres], ih]
      simp only [Prod.mk.injEq, List.map_cons, List.sum_cons, List.countP_cons]
      refine ⟨?_, ?_, ?_⟩
      · rw [show matchTeam1Pts p m = p from by simp [matchTeam1Pts, hres]]
        ring
      · rw [show matchTeam2Pts p m = 0 from by simp [matchTeam2Pts, hres]]
        ring
      · rw [show (!(m.result == MatchResult.pending)) = true from by simp [hres]]
        simp
        omega
    | team2 =>
      rw [show scoreMatchStep p (a, b, c) m = (a, b + p, c + 1) from by
        simp [scoreMatchStep, hres], ih]
      simp only [Prod.mk.injEq, List.map_cons, List.sum_cons, List.countP_cons]
      refine ⟨?_, ?_, ?_⟩
      · rw [show matchTeam1Pts p m = 0 from by simp [matchTeam1Pts, hres]]
        ring
      · rw [show matchTeam2Pts p m = p from by simp [matchTeam2Pts, hres]]
        ring
      · rw [show (!(m.result == MatchResult.pending)) = true from by simp [hres]]
        simp
        omega
    | tie =>
      rw [show scoreMatchStep p (a, b, c) m = (a + p / 2, b + p / 2, c + 1) from by
        simp [scoreMatchStep, hres], ih]
      simp only [Prod.mk.injEq, List.map_cons, List.sum_cons, List.countP_cons]
      refine ⟨?_, ?_, ?_⟩
      · rw [show matchTeam1Pts p m = p / 2 from by simp [matchTeam1Pts, hres]]
        ring
      · rw [show matchTeam2Pts p m = p / 2 from by simp [matchTeam2Pts, hres]]
        ring
      · rw [show (!(m.result == MatchResult.pending)) = true from by simp [hres]]
        simp
        omega

theorem roundScoreOf_eq_spec (r : Round) : roundScoreOf r = specRoundScore r := by
  rw [roundScoreOf, specRoundScore]
  simp only [score_matches_foldl, zero_add]

theorem scoreboard_foldl (l : List Round) (sb : Scoreboard) :
    l.foldl scoreboardStep sb =
      { sb with
        team1Total := sb.team1Total + (l.map (fun r => (roundScoreOf r).team1Points)).sum,
        team2Total := sb.team2Total + (l.map (fun r => (roundScoreOf r).team2Points)).sum,
        roundScores := sb.roundScores ++ l.map roundScoreOf } := by
  induction l generalizing sb with
  | nil =>
    cases sb
    simp
  | cons r tl ih =>
    rw [List.foldl_cons, ih]
    cases sb
    simp only [scoreboardStep, Scoreboard.mk.injEq, List.map_cons, List.sum_cons,
      List.append_assoc, List.singleton_append]
    refine ⟨trivial, trivial, by ring, by ring, trivial⟩

/-- C6: the scoreboard has one `RoundScore` per round in round order with
the per-round totals of the spec (team1/team2/tie contributions, pending
counted only in `totalMatches`), the grand totals are the sums of the round
points, and a round's score is invariant under permuting its matches. -/
theorem calculateScoreboard_correct (t : Tournament) :
    (CalculateScoreboard t).roundScores = (t.rounds.getD []).map specRoundScore
    ∧ (CalculateScoreboard t).team1Total =
        ((t.rounds.getD []).map (fun r => (specRoundScore r).team1Points)).sum
    ∧ (CalculateScoreboard t).team2Total =
        ((t.rounds.getD []).map (fun r => (specRoundScore r).team2Points)).sum
    ∧ ∀ (r : Round) (ms : List Match), (r.matches'.getD []).Perm ms →
        roundScoreOf { r with matches' := some ms } = roundScoreOf r := by
  have hfe : roundScoreOf = specRoundScore := funext roundScoreOf_eq_spec
  refine ⟨?_, ?_, ?_, ?_⟩
  · rw [CalculateScoreboard, scoreboard_foldl, hfe]
    simp
  · rw [CalculateScoreboard, scoreboard_foldl, hfe]
    simp
  · rw [CalculateScoreboard, scoreboard_foldl, hfe]
    simp
  · intro r ms hperm
    rw [roundScoreOf_eq_spec, roundScoreOf_eq_spec, specRoundScore, specRoundScore]
    have hms : ({ r with matches' := some ms } : Round).matches'.getD [] = ms := rfl
    simp only [hms]
    refine RoundScore.ext rfl rfl ?_ ?_ rfl ?_ ?_
    · exact ((hperm.map (matchTeam1Pts r.pointsPerMatch)).sum_eq).symm
    · exact ((hperm.map (matchTeam2Pts r.pointsPerMatch)).sum_eq).symm
    · exact (hperm.countP_eq (fun m => !(m.result == MatchResult.pending))).symm
    · exact hperm.length_eq.symm

/-! ### Hole-result decoding (`Match.UnmarshalJSON`, models.go 66-107) -/

/-- The three shapes the stored `holeResults` field can take. -/
inductive RawHoleResults where
  | absent
  | mapFmt (entries : List (String × String))
  | arrFmt (entries : List String)
deriving DecidableEq, Repr

/-- Model of Go `fmt.Sscanf(k, "%d", &hole)` (library behaviour, not repo
code): skip leading spaces, optional sign, at least one digit — trailing
characters are ignored by `Sscanf`.  `none` models a scan error. -/
def parseGoInt (s : String) : Option Int :=
  let cs := s.data.dropWhile (fun c => c = ' ')
  let signed : Bool × List Char :=
    match cs with
    | '-' :: rest => (true, rest)
    | '+' :: rest => (false, rest)
    | _ => (false, cs)
  let digits := signed.2.takeWhile Char.isDigit
  if digits.isEmpty then none
  else
    let n := digits.foldl (fun acc c => acc * 10 + (c.toNat - ('0').toNat)) 0
    some (if signed.1 then -(n : Int) else (n : Int))

/-- One entry of the map-format branch: parse the key with `%d`, keep the
entry when the parse succeeded and the value is non-empty. -/
def decodeMapStep (acc : HRMap) (p : String × String) : HRMap :=
  match parseGoInt p.1 with
  | some hole => if p.2 = "" then acc else assocInsert acc hole p.2
  | none => acc

/-- One entry of the array-format branch: index `i` with a non-empty value
becomes the entry for hole `i+1`. -/
def decodeArrStep (acc : HRMap) (p : Nat × String) : HRMap :=
  if p.2 = "" then acc else assocInsert acc ((p.1 : Int) + 1) p.2

/-- The `holeResults` decoding of `Match.UnmarshalJSON`: absent/null gives
the empty map, otherwise the map format is tried first and the legacy
18-element array format is the fallback. -/
def decodeHoleResults : RawHoleResults → HRMap
  | RawHoleResults.absent => []
  | RawHoleResults.mapFmt entries => entries.foldl decodeMapStep []
  | RawHoleResults.arrFmt entries => entries.enum.foldl decodeArrStep []

theorem assocInsert_of_not_hasKey {κ υ : Type} [BEq κ] [LawfulBEq κ]
    (m : List (κ × υ)) (k : κ) (v : υ) (h : ∀ q ∈ m, ¬ q.1 = k) :
    assocInsert m k v = m ++ [(k, v)] := by
  rw [assocInsert, if_neg]
  intro hc
  obtain ⟨q, hq, hqk⟩ := List.any_eq_true.mp hc
  exact h q hq (by simpa using hqk)

theorem decode_arr_aux (entries : List String) (n : Nat) (acc : HRMap)
    (hacc : ∀ q ∈ acc, q.1 < (n : Int) + 1) :
    (entries.enumFrom n).foldl decodeArrStep acc =
      acc ++ (entries.enumFrom n).filterMap
        (fun p => if p.2 = "" then none else some (((p.1 : Int) + 1, p.2) : Int × String)) := by
  induction entries generalizing n acc with
  | nil => simp [List.enumFrom]
  | cons v tl ih =>
    rw [show (v :: tl).enumFrom n = (n, v) :: tl.enumFrom (n + 1) from rfl]
    rw [List.foldl_cons, List.filterMap_cons]
    by_cases hv : v = ""
    · rw [show decodeArrStep acc (n, v) = acc from by simp [decodeArrStep, hv]]
      rw [if_pos hv]
      exact ih (n + 1) acc (fun q hq => by have := hacc q hq; push_cast; omega)
    · rw [show decodeArrStep acc (n, v) = acc ++ [((n : Int) + 1, v)] from by
        rw [decodeArrStep, if_neg hv]
        exact assocInsert_of_not_hasKey acc ((n : Int) + 1) v
          (fun q hq => by have := hacc q hq; omega)]
      rw [if_neg hv]
      rw [ih (n + 1) (acc ++ [((n : Int) + 1, v)]) ?_]
      · rw [List.append_assoc]
        rfl
      · intro q hq
        rcases List.mem_append.mp hq with hq1 | hq2
        · have := hacc q hq1
          push_cast
          omega
        · have : q = (((n : Int) + 1), v) := by simpa using hq2
          rw [this]
          push_cast
          omega

theorem decode_map_aux (hr : HRMap) (acc : HRMap)
    (hkeys : ∀ p ∈ hr, parseGoInt (toString p.1) = some p.1)
    (hvals : ∀ p ∈ hr, ¬ p.2 = "")
    (hdisj : ∀ q ∈ acc, ∀ p ∈ hr, ¬ q.1 = p.1)
    (hnodup : hr.Pairwise (fun p q => ¬ p.1 = q.1)) :
    (hr.map (fun p => (toString p.1, p.2))).foldl decodeMapStep acc = acc ++ hr := by
  induction hr generalizing acc with
  | nil => simp
  | cons p tl ih =>
    rw [List.map_cons, List.foldl_cons]
    have hstep : decodeMapStep acc (toString p.1, p.2) = acc ++ [p] := by
      have hp1 := hkeys p (List.mem_cons_self p tl)
      have hp2 := hvals p (List.mem_cons_self p tl)
      simp only [decodeMapStep, hp1, hp2, if_false, ite_false]
      rw [assocInsert_of_not_hasKey acc p.1 p.2
        (fun q hq => hdisj q hq p (List.mem_cons_self p tl))]
    rw [hstep]
    rw [ih (acc ++ [p]) ?_ ?_ ?_ ?_]
    · rw [List.append_assoc]
      rfl
    · intro q hq
      exact hkeys q (List.mem_cons_of_mem p hq)
    · intro q hq
      exact hvals q (List.mem_cons_of_mem p hq)
    · intro q hq p' hp'
      rcases List.mem_append.mp hq with hq1 | hq2
      · exact hdisj q hq1 p' (List.mem_cons_of_mem p hp')
      · have : q = p := by simpa using hq2
        rw [this]
        exact (List.pairwise_cons.mp hnodup).1 p' hp'
    · exact (List.pairwise_cons.mp hnodup).2

theorem parseGoInt_toString_small :
    ∀ k ∈ Finset.Icc (1 : Int) 18, parseGoInt (toString k) = some k := by decide

/-- C5: the array format decodes index `i` with a non-empty string to the
entry for hole `i+1`, omitting empty entries; and a record already in the
keyed-map form (decimal keys for holes 1..18, distinct, non-empty values)
decodes back to exactly the same map — the upgrade is idempotent. -/
theorem decodeHoleResults_correct :
    (∀ arr : List String,
        decodeHoleResults (RawHoleResults.arrFmt arr) =
          arr.enum.filterMap
            (fun p => if p.2 = "" then none else some (((p.1 : Int) + 1, p.2) : Int × String)))
    ∧ (∀ hr : HRMap,
        (∀ p ∈ hr, 1 ≤ p.1 ∧ p.1 ≤ 18) →
        (∀ p ∈ hr, ¬ p.2 = "") →
        hr.Pairwise (fun p q => ¬ p.1 = q.1) →
        decodeHoleResults (RawHoleResults.mapFmt (hr.map (fun p => (toString p.1, p.2)))) = hr) := by
  constructor
  · intro arr
    rw [decodeHoleResults, List.enum]
    exact decode_arr_aux arr 0 [] (fun q hq => by simp at hq)
  · intro hr hkeys hvals hnodup
    rw [decodeHoleResults]
    rw [decode_map_aux hr []
      (fun p hp => parseGoInt_toString_small p.1 (Finset.mem_Icc.mpr (hkeys p hp)))
      hvals (fun q hq => by simp at hq) hnodup]
    rfl

/-! ### Read-path normalization (`FileStore.readTournament` lines 47-54,
`normalizeTournament` in firestore.go lines 49-76) -/

/-- The normalization loop of `FileStore.readTournament`: only each match's
nil hole-result map is replaced by an empty one; nil player lists, nil
match lists and a nil rounds list are left as they are. -/
def fileNormalizeTournament (t : Tournament) : Tournament :=
  { t with rounds := t.rounds.map (fun rounds => rounds.map (fun r =>
      { r with matches' := r.matches'.map (fun ms => ms.map (fun m =>
          { m with holeResults := some (m.holeResults.getD []) })) })) }

/-- `normalizeTournament` of the Firestore store: every nil collection —
team player lists, the rounds list, match lists, hole maps and the two
player-id lists of each match — is materialized as an empty container. -/
def normalizeTournament (t : Tournament) : Tournament :=
  { t with
    team1 := { t.team1 with players := some (t.team1.players.getD []) },
    team2 := { t.team2 with players := some (t.team2.players.getD []) },
    rounds := some ((t.rounds.getD []).map (fun r =>
      { r with matches' := some ((r.matches'.getD []).map (fun m =>
          { m with
            holeResults := some (m.holeResults.getD []),
            team1Players := some (m.team1Players.getD []),
            team2Players := some (m.team2Players.getD []) })) })) }

/-- All of a match's collections are materialized. -/
def matchMaterialized (m : Match) : Bool :=
  m.holeResults.isSome && m.team1Players.isSome && m.team2Players.isSome

/-- Every collection of the tournament is materialized (non-nil). -/
def tournamentFullyMaterialized (t : Tournament) : Bool :=
  t.team1.players.isSome && t.team2.players.isSome && t.rounds.isSome &&
    (t.rounds.getD []).all (fun r => r.matches'.isSome &&
      (r.matches'.getD []).all matchMaterialized)

/-- Only the hole-result maps are materialized. -/
def tournamentMapsMaterialized (t : Tournament) : Bool :=
  (t.rounds.getD []).all (fun r =>
    (r.matches'.getD []).all (fun m => m.holeResults.isSome))

/-- C9 (amended): the Firestore read path materializes every collection of
the decoded tournament; the file read path guarantees only that each
match's hole-result map is non-nil. -/
theorem normalize_materializes (t : Tournament) :
    tournamentFullyMaterialized (normalizeTournament t) = true
    ∧ tournamentMapsMaterialized (fileNormalizeTournament t) = true := by
  obtain ⟨tid, tname, ⟨aid, aname, apl⟩, ⟨bid, bname, bpl⟩, rounds, ca, ua⟩ := t
  constructor
  · simp only [tournamentFullyMaterialized, normalizeTournament, Option.isSome_some,
      Bool.true_and, Option.getD_some, List.all_eq_true, Bool.and_eq_true]
    intro r hr
    obtain ⟨r0, _, rfl⟩ := List.mem_map.mp hr
    refine ⟨rfl, ?_⟩
    intro m hm
    obtain ⟨m0, _, rfl⟩ := List.mem_map.mp (by simpa using hm)
    rfl
  · cases rounds with
    | none => rfl
    | some rs =>
      simp only [tournamentMapsMaterialized, fileNormalizeTournament, Option.map_some',
        Option.getD_some, List.all_eq_true]
      intro r hr
      obtain ⟨r0, _, rfl⟩ := List.mem_map.mp hr
      cases hms : r0.matches' with
      | none => simp [hms]
      | some ms =>
        simp only [hms, Option.map_some', Option.getD_some, List.all_eq_true]
        intro m hm
        obtain ⟨m0, _, rfl⟩ := List.mem_map.mp hm
        rfl

/-- A decodable stored record whose first team omits the players list. -/
def badTournament : Tournament :=
  { id := "x", name := "X",
    team1 := { id := "a", name := "A", players := none },
    team2 := { id := "b", name := "B", players := some [] },
    rounds := some [], createdAt := 0, updatedAt := 0 }

/-- Counterexample to C9 as stated: the file backend's read path returns a
tournament whose omitted players list is still the missing sentinel, so not
every backend materializes all collections. -/
theorem fileNormalize_not_fully_materialized :
    ¬ (tournamentFullyMaterialized (fileNormalizeTournament badTournament) = true) := by
  decide

/-! ### Listing (`FileStore.ListTournaments` lines 110-132,
`FirestoreStore.ListTournaments` lines 148-170) -/

/-- A directory entry as `os.ReadDir` presents it; `content` is the result
of reading and decoding the file (`none`: the record fails to decode). -/
structure DirEntry where
  name : String
  isDir : Bool
  content : Option Tournament
deriving DecidableEq, Repr

/-- One iteration of the listing loop: skip directories, non-`.json` names,
`_`-prefixed auxiliary files, and records that fail to decode. -/
def fileListStep (acc : List Tournament) (e : DirEntry) : List Tournament :=
  if e.isDir || !(e.name.endsWith ".json") || e.name.startsWith "_" then acc
  else
    match e.content with
    | none => acc
    | some t => acc ++ [fileNormalizeTournament t]

/-- `FileStore.ListTournaments` over a directory state: the body never
produces the error branch of its return type — decode failures are skipped
with `continue`. -/
def ListTournaments (entries : List DirEntry) : Except String (List Tournament) :=
  Except.ok (entries.foldl fileListStep [])

/-- One iteration of the Firestore listing loop: a document that fails
`DataTo` is skipped. -/
def firestoreListStep (acc : List Tournament) (d : Option Tournament) : List Tournament :=
  match d with
  | none => acc
  | some t => acc ++ [normalizeTournament t]

/-- `FirestoreStore.ListTournaments` over the document snapshots. -/
def firestoreListTournaments (docs : List (Option Tournament)) :
    Except String (List Tournament) :=
  Except.ok (docs.foldl firestoreListStep [])

theorem fileListStep_foldl (l : List DirEntry) (acc : List Tournament) :
    l.foldl fileListStep acc = acc ++ l.filterMap (fun e =>
      if e.isDir || !(e.name.endsWith ".json") || e.name.startsWith "_" then none
      else e.content.map fileNormalizeTournament) := by
  induction l generalizing acc with
  | nil => simp
  | cons e tl ih =>
    rw [List.foldl_cons, List.filterMap_cons]
    by_cases hskip : (e.isDir || !(e.name.endsWith ".json") || e.name.startsWith "_") = true
    · rw [show fileListStep acc e = acc from by rw [fileListStep, if_pos hskip], if_pos hskip,
        ih acc]
    · cases hc : e.content with
      | none =>
        rw [show fileListStep acc e = acc from by simp [fileListStep, hskip, hc]]
        rw [if_neg hskip, ih acc]
        simp
      | some t =>
        rw [show fileListStep acc e = acc ++ [fileNormalizeTournament t] from by
          simp [fileListStep, hskip, hc]]
        rw [if_neg hskip, ih (acc ++ [fileNormalizeTournament t]), List.append_assoc]
        simp

theorem firestoreListStep_foldl (l : List (Option Tournament)) (acc : List Tournament) :
    l.foldl firestoreListStep acc = acc ++ l.filterMap (fun d => d.map normalizeTournament) := by
  induction l generalizing acc with
  | nil => simp
  | cons d tl ih =>
    rw [List.foldl_cons, List.filterMap_cons]
    cases d with
    | none =>
      rw [show firestoreListStep acc none = acc from rfl, ih acc]
      rfl
    | some t =>
      rw [show firestoreListStep acc (some t) = acc ++ [normalizeTournament t] from rfl]
      rw [ih (acc ++ [normalizeTournament t]), List.append_assoc]
      rfl

/-- C8: listing never fails — it always returns the `ok` collection of the
decodable records (corrupt records are skipped, never aborting the scan)
for both the file backend and the Firestore backend. -/
theorem listTournaments_never_fails (entries : List DirEntry)
    (docs : List (Option Tournament)) :
    ListTournaments entries =
      Except.ok (entries.filterMap (fun e =>
        if e.isDir || !(e.name.endsWith ".json") || e.name.startsWith "_" then none
        else e.content.map fileNormalizeTournament))
    ∧ firestoreListTournaments docs =
      Except.ok (docs.filterMap (fun d => d.map normalizeTournament)) := by
  constructor
  · rw [ListTournaments, fileListStep_foldl]
    rfl
  · rw [firestoreListTournaments, firestoreListStep_foldl]
    rfl

/-! ### Concrete fixtures for the witnesses -/

def exMatch : Match :=
  { id := "m1", roundNumber := 1, team1Players := some ["p1"], team2Players := some ["p2"],
    result := MatchResult.pending, score := "", holeResults := some [] }

def exRound : Round :=
  { number := 1, name := "Lauderdale", roundType := RoundType.lauderdale,
    pointsPerMatch := 1, matches' := some [exMatch] }

def exTournament : Tournament :=
  { id := "t1", name := "Cup",
    team1 := { id := "a", name := "A", players := some [] },
    team2 := { id := "b", name := "B", players := some [] },
    rounds := some [exRound], createdAt := 0, updatedAt := 0 }

def exStore : StoreState := [("t1", exTournament)]

def exMatchUpd : Match := updateMatchHole "A" "B" 5 "team1" exMatch

def exRoundUpd : Round := { exRound with matches' := some [exMatchUpd] }

def exTournamentUpd : Tournament :=
  { exTournament with rounds := some [exRoundUpd], updatedAt := 7 }

/-- Witness for C2 at a concrete edit: hole 5 recorded on a fresh match
backfills holes 1-4 as halved. -/
theorem setHoleResult_backfill_witness :
    ∃ m', matchById exTournamentUpd 1 "m1" = some m' ∧
      ∀ k : Int, mapGet (m'.holeResults.getD []) k =
        if k = 5 then "team1"
        else if 1 ≤ k ∧ k < 5 ∧ mapGet (exMatch.holeResults.getD []) k = "" then "halved"
        else mapGet (exMatch.holeResults.getD []) k :=
  setHoleResult_backfill exTournament 1 "m1" 5 "team1" 7 exTournamentUpd exMatch
    (by decide) (by rfl) (by rfl)

def exMatch2 : Match :=
  { exMatch with holeResults := some [((1 : Int), "team1"), (2, "team2")] }

def exRound2 : Round := { exRound with matches' := some [exMatch2] }

def exTournament2 : Tournament := { exTournament with rounds := some [exRound2] }

def exMatch2Upd : Match := updateMatchHole "A" "B" 2 "" exMatch2

def exRound2Upd : Round := { exRound2 with matches' := some [exMatch2Upd] }

def exTournament2Upd : Tournament :=
  { exTournament2 with rounds := some [exRound2Upd], updatedAt := 9 }

/-- Witness for C10 at a concrete un-play of hole 2. -/
theorem setHoleResult_unplay_witness :
    ∃ m', matchById exTournament2Upd 1 "m1" = some m' ∧
      mapGet (m'.holeResults.getD []) 2 = "" ∧
      (∀ k : Int, 1 ≤ k → k < 2 → mapGet (exMatch2.holeResults.getD []) k = "" →
        mapGet (m'.holeResults.getD []) k = "halved") ∧
      ¬ ((m'.result, m'.score) = (MatchResult.pending, "")) :=
  setHoleResult_unplay exTournament2 1 "m1" 2 9 exTournament2Upd exMatch2
    (by decide) (by decide) (by rfl) (by rfl)

/-- Witness for C4 at a concrete well-formed store. -/
theorem setHoleResult_notFound_iff_witness :
    (∀ p ∈ exStore, p.2.id = p.1) ∧
      (((storeUpdateHoleResult exStore "t1" 1 "m1" 3 "team1" 5).1 = none) ↔
        addressedExists exStore "t1" 1 "m1" = true) :=
  ⟨by decide, (setHoleResult_notFound_iff exStore "t1" 1 "m1" 3 "team1" 5 (by decide)).1⟩

def exMatchW1 : Match := { exMatch with id := "w1", result := MatchResult.team1 }

def exMatchW2 : Match := { exMatch with id := "w2", result := MatchResult.tie }

def exRoundSb : Round := { exRound with matches' := some [exMatchW1, exMatchW2] }

/-- Witness for C6: swapping the two matches of a round leaves its round
score unchanged. -/
theorem calculateScoreboard_correct_witness :
    roundScoreOf { exRoundSb with matches' := some [exMatchW2, exMatchW1] } =
      roundScoreOf exRoundSb :=
  (calculateScoreboard_correct exTournament).2.2.2 exRoundSb [exMatchW2, exMatchW1]
    (List.Perm.swap exMatchW2 exMatchW1 [])

/-- Witness for C5 at the spec's own example vectors. -/
theorem decodeHoleResults_correct_witness :
    decodeHoleResults (RawHoleResults.arrFmt ["team1", "", "halved"]) =
        [((1 : Int), "team1"), (3, "halved")] ∧
      decodeHoleResults (RawHoleResults.mapFmt [("1", "team1"), ("3", "halved")]) =
        [((1 : Int), "team1"), (3, "halved")] := by
  constructor
  · rw [decodeHoleResults_correct.1 ["team1", "", "halved"]]
    decide
  · have h := decodeHoleResults_correct.2 [((1 : Int), "team1"), (3, "halved")]
      (by decide) (by decide) (by decide)
    rw [show ([("1", "team1"), ("3", "halved")] : List (String × String)) =
        ([((1 : Int), "team1"), (3, "halved")] : HRMap).map (fun p => (toString p.1, p.2))
        from by decide]
    exact h

end GolfScoring
